import Mathlib

/-!
# inspircd-contrib: services groups and the solve-message gate

A shallow embedding of `src/3.0/m_groups.cpp`, `src/3.0/m_solvemsg.cpp` and
`src/m_pretenduser.cpp`.

* A `std::string` is the list of its characters (`Str`).
* A user object is a record; the two extension slots the modules attach to
  it (`"groups"` and `"solve-message"`) are optional fields, `none` standing
  for the null pointer `ExtensionItem::get_raw` returns for an absent slot.
* Hooks that write to the user return the updated record next to their
  result.  Lines sent with `User::WriteNotice` are appended to the record's
  `notices` log, oldest first.
* An `int` is an integer in the range `isInt`; the sum of two `int` values is
  `intAdd`, which wraps around modulo `2^32`.
* Helpers the modules call on the host (`InspIRCd::Match`, `ConvToNum`,
  `GenRandomInt`, `FindNick`) are parameters of the embedded functions.  The
  definitions `Match` and `GenRandomInt` model two of them after the spec, for
  the statements that are about concrete patterns and about the range of the
  operands.
-/

namespace InspIRCd

/-- A `std::string`, as the list of its characters. -/
abbrev Str := List Char

/-- The host's three-valued hook result. -/
inductive ModResult where
  | MOD_RES_DENY
  | MOD_RES_PASSTHRU
  | MOD_RES_ALLOW
deriving DecidableEq, Repr

/-- The host's command result. -/
inductive CmdResult where
  | CMD_FAILURE
  | CMD_SUCCESS
  | CMD_INVALID
deriving DecidableEq, Repr

/-- The list of groups a user is a member of: `insp::flat_set<std::string>`,
held as the vector of its elements in iteration order. -/
abbrev GroupList := List Str

/-- The smallest value of a 32-bit `int`. -/
def INT_MIN : Int := -2147483648

/-- The largest value of a 32-bit `int`. -/
def INT_MAX : Int := 2147483647

/-- The integer is a value of type `int`. -/
def isInt (x : Int) : Prop :=
  INT_MIN ≤ x ∧ x ≤ INT_MAX

instance (x : Int) : Decidable (isInt x) := by
  unfold isInt
  infer_instance

/-- The `int` that holds an integer result: the result is reduced modulo
`2^32` into the range from `INT_MIN` to `INT_MAX`. -/
def intWrap (x : Int) : Int :=
  (x + 2147483648) % 4294967296 - 2147483648

/-- The sum `a + b` of two `int` values, as an `int`. -/
def intAdd (a b : Int) : Int :=
  intWrap (a + b)

/-- The payload of the `"solve-message"` slot (`struct Problem`).  The
operands are `int` members: integers for which `Problem.inRange` holds.
Their sum in the code is `intAdd`, which leaves the range of `int` by
wrapping around. -/
structure Problem where
  first : Int
  second : Int
  warned : Bool
deriving DecidableEq, Repr

/-- Both operands are values of type `int`. -/
def Problem.inRange (p : Problem) : Prop :=
  isInt p.first ∧ isInt p.second

instance (p : Problem) : Decidable (Problem.inRange p) := by
  unfold Problem.inRange
  infer_instance

/-- The kind of a user object, as tested by `IS_LOCAL`. -/
inductive UserType where
  | USERTYPE_LOCAL
  | USERTYPE_REMOTE
  | USERTYPE_SERVER
deriving DecidableEq, Repr

/-- A user object with the members the two modules read or write.
`exempt` and `CommandFloodPenalty` are members of `LocalUser` and are only
consulted on local users; `serverIsULine` is `user->server->IsULine()`.
The flood penalty is the host's counter of penalty units, declared outside
this repository; it is a natural number here. -/
structure User where
  usertype : UserType
  exempt : Bool
  CommandFloodPenalty : Nat
  serverIsULine : Bool
  groups : Option GroupList
  solve_message : Option Problem
  notices : List Str
deriving DecidableEq, Repr

/-- A channel; `OnCheckBan` receives one and does not look at it. -/
structure Channel where
  name : Str
deriving DecidableEq, Repr

/-! ## m_groups.cpp -/

/-- Modelled from the spec: `insp::flat_set<std::string>::insert` is declared by
the host (flat_map.h).  The set holds no duplicates and is iterated in
ascending order of `std::less<std::string>`: the new name goes in front of the
first element it is smaller than, and is dropped when an equal element is
met. -/
def GroupList.insert (x : Str) : GroupList → GroupList
  | [] => [x]
  | y :: ys =>
    if y < x then y :: GroupList.insert x ys
    else if x < y then x :: y :: ys
    else y :: ys

/-- Modelled from the spec: `irc::spacesepstream` is declared by the host
(hashcomp.h); it parses its input "as a space-separated token list".  This is
the list of tokens successive `GetToken` calls hand out when the stream has
read `cur` of the current token and `rest` is still to be read: a token is a
maximal run of characters other than the space, and empty tokens are
skipped. -/
def sepTokens (cur : Str) : Str → List Str
  | [] => if cur = [] then [] else [cur]
  | c :: rest =>
    if c = ' ' then
      if cur = [] then sepTokens [] rest else cur :: sepTokens [] rest
    else sepTokens (cur ++ [c]) rest

/-- All tokens of `irc::spacesepstream groupstream(value)`. -/
def spacesepstream (value : Str) : List Str :=
  sepTokens [] value

/-- `GroupExt::get`: the `"groups"` slot of the container, `none` when
`get_raw` returns null. -/
def GroupExt.get (container : User) : Option GroupList :=
  container.groups

/-- Modelled from the spec: `ExtensionItem::set_raw` is declared by the host.
For the `"groups"` slot: it "exclusively installs" the value and hands back
"whatever was previously installed". -/
def GroupExt.set_raw (container : User) (value : GroupList) : Option GroupList × User :=
  (container.groups, { container with groups := some value })

/-- Modelled from the spec: `ExtensionItem::unset_raw` is declared by the
host.  For the `"groups"` slot: it removes the slot's value and hands it back,
"leaving no slot present". -/
def GroupExt.unset_raw (container : User) : Option GroupList × User :=
  (container.groups, { container with groups := none })

/-- One turn of the loop of `GroupExt::serialize`: a space is pushed when the
buffer is not empty, then the name is appended. -/
def GroupExt.serializeStep (buffer : Str) (name : Str) : Str :=
  (if buffer ≠ [] then buffer ++ [' '] else buffer) ++ name

/-- `GroupExt::serialize(format, container, item)`; `item` is the slot's
value, `none` for the null pointer. -/
def GroupExt.serialize (item : Option GroupList) : Str :=
  match item with
  | none => []
  | some grouplist => grouplist.foldl GroupExt.serializeStep []

/-- The group list `GroupExt::unserialize` builds from its input: every token
of the stream is inserted into an empty set. -/
def GroupExt.newgrouplist (value : Str) : GroupList :=
  (spacesepstream value).foldl (fun l groupname => GroupList.insert groupname l) []

/-- `GroupExt::unserialize(format, container, value)`. -/
def GroupExt.unserialize (container : User) (value : Str) : User :=
  let newgrouplist := GroupExt.newgrouplist value
  if newgrouplist = [] then
    (GroupExt.unset_raw container).2
  else
    (GroupExt.set_raw container newgrouplist).2

/-- The loop of `ModuleGroups::OnCheckBan` over the group list: the first
name that matches the submask ends it with `MOD_RES_DENY`. -/
def OnCheckBan.loop (Match : Str → Str → Bool) (submask : Str) : GroupList → ModResult
  | [] => ModResult.MOD_RES_PASSTHRU
  | g :: rest =>
    if Match g submask then ModResult.MOD_RES_DENY
    else OnCheckBan.loop Match submask rest

/-- `ModuleGroups::OnCheckBan(user, channel, mask)`; `Match` is the host's
`InspIRCd::Match`. -/
def OnCheckBan (Match : Str → Str → Bool) (user : User) (_channel : Channel) (mask : Str) :
    ModResult :=
  if mask.length ≤ 2 ∨ mask.head? ≠ some 'g' ∨ (mask.drop 1).head? ≠ some ':' then
    ModResult.MOD_RES_PASSTHRU
  else
    match GroupExt.get user with
    | none => ModResult.MOD_RES_PASSTHRU
    | some groups => OnCheckBan.loop Match (mask.drop 2) groups

/-! ## m_solvemsg.cpp -/

/-- Modelled from the spec: `User::WriteNotice` is declared by the host; it
sends one notice line to the user.  The line is added to the end of the
user's notice log. -/
def User.WriteNotice (user : User) (text : Str) : User :=
  { user with notices := user.notices ++ [text] }

/-- The notice of `HandleLocal` for an exempt user. -/
def noticeNoNeed : Str := ("*** You do not need to solve a problem!").toList

/-- The notice of `HandleLocal` for a user without a problem. -/
def noticeAlreadySolved : Str := ("** You have already solved your problem!").toList

/-- `InspIRCd::Format("*** %s is not the correct answer.", parameters[0].c_str())`. -/
def noticeWrong (answer : Str) : Str :=
  ("*** ").toList ++ answer ++ (" is not the correct answer.").toList

/-- `InspIRCd::Format("*** %s is the correct answer!", parameters[0].c_str())`. -/
def noticeCorrect (answer : Str) : Str :=
  ("*** ").toList ++ answer ++ (" is the correct answer!").toList

/-- The first line `OnUserPreMessage` writes to an unwarned user. -/
def noticeBefore : Str :=
  ("*** Before you can send messages you must solve the following problem:").toList

/-- `InspIRCd::Format("*** What is %d + %d?", problem->first, problem->second)`. -/
def noticeQuestion (first second : Int) : Str :=
  ("*** What is ").toList ++ (toString first).toList ++ (" + ").toList
    ++ (toString second).toList ++ ("?").toList

/-- The last line `OnUserPreMessage` writes to an unwarned user. -/
def noticeHowTo : Str :=
  ("*** You can enter your answer using /QUOTE SOLVE <answer>").toList

/-- `CommandSolve::HandleLocal(user, parameters)`.  `ConvToNum` is the host's
`ConvToNum<int>`.  The command is registered with one parameter at least and
at most, so the host always supplies `parameters[0]`.  The result is compared
with the `int` sum of the operands. -/
def HandleLocal (ConvToNum : Str → Int) (user : User) (parameters : List Str) :
    CmdResult × User :=
  if user.exempt then
    (CmdResult.CMD_FAILURE, user.WriteNotice noticeNoNeed)
  else
    match user.solve_message with
    | none => (CmdResult.CMD_FAILURE, user.WriteNotice noticeAlreadySolved)
    | some problem =>
      let result := ConvToNum (parameters.getD 0 [])
      if result ≠ intAdd problem.first problem.second then
        let user := user.WriteNotice (noticeWrong (parameters.getD 0 []))
        (CmdResult.CMD_FAILURE,
          { user with CommandFloodPenalty := user.CommandFloodPenalty + 10000 })
      else
        let user := { user with solve_message := none }
        (CmdResult.CMD_SUCCESS, user.WriteNotice (noticeCorrect (parameters.getD 0 [])))

/-- `ModuleSolveMessage::OnUserPostInit(user)`.  `GenRandomInt max rv` is what
the host's `GenRandomInt(max)` returns when its generator draws `rv`; `rv1`
and `rv2` are the draws of the two calls.  The host's results are small, so
storing them in the `int` operands keeps their value. -/
def OnUserPostInit (GenRandomInt : Nat → Nat → Nat) (rv1 rv2 : Nat) (user : User) : User :=
  let problem : Problem :=
    { first := (GenRandomInt 9 rv1 : Nat), second := (GenRandomInt 9 rv2 : Nat), warned := false }
  { user with solve_message := some problem }

/-- `MessageTarget::TargetType`. -/
inductive TargetType where
  | TYPE_USER
  | TYPE_CHANNEL
  | TYPE_SERVER
deriving DecidableEq, Repr

/-- The target of a message: a user (what `Get<User>()` returns), a channel
or a server mask. -/
inductive MessageTarget where
  | user (dest : User)
  | channel (dest : Channel)
  | server (dest : Str)
deriving DecidableEq, Repr

/-- `MessageTarget::type`. -/
def MessageTarget.type : MessageTarget → TargetType
  | MessageTarget.user _ => TargetType.TYPE_USER
  | MessageTarget.channel _ => TargetType.TYPE_CHANNEL
  | MessageTarget.server _ => TargetType.TYPE_SERVER

/-- `ModuleSolveMessage::OnUserPreMessage(user, msgtarget, details)`; the
message details are not looked at. -/
def OnUserPreMessage (user : User) (msgtarget : MessageTarget) : ModResult × User :=
  if user.usertype ≠ UserType.USERTYPE_LOCAL ∨ user.exempt = true
      ∨ msgtarget.type ≠ TargetType.TYPE_USER then
    (ModResult.MOD_RES_PASSTHRU, user)
  else
    match msgtarget with
    | MessageTarget.channel _ => (ModResult.MOD_RES_PASSTHRU, user)
    | MessageTarget.server _ => (ModResult.MOD_RES_PASSTHRU, user)
    | MessageTarget.user target =>
      if target.serverIsULine then
        (ModResult.MOD_RES_PASSTHRU, user)
      else
        match user.solve_message with
        | none => (ModResult.MOD_RES_PASSTHRU, user)
        | some problem =>
          if problem.warned then
            (ModResult.MOD_RES_DENY, user)
          else
            let user := user.WriteNotice noticeBefore
            let user := user.WriteNotice (noticeQuestion problem.first problem.second)
            let user := user.WriteNotice noticeHowTo
            (ModResult.MOD_RES_DENY,
              { user with solve_message := some { problem with warned := true } })

/-- The host delivering a run of messages from one user: `OnUserPreMessage`
is called for each target in turn, on the state the previous call left. -/
def sendAll (user : User) : List MessageTarget → List ModResult × User
  | [] => ([], user)
  | t :: ts =>
    let r := OnUserPreMessage user t
    let rest := sendAll r.2 ts
    (r.1 :: rest.1, rest.2)

/-- A reader of decimal digits: the value of the leading digits of the
input, after `acc`. -/
def readDigits (acc : Nat) : Str → Nat
  | [] => acc
  | c :: cs => if c.isDigit then readDigits (acc * 10 + (c.toNat - 48)) cs else acc

/-- A decimal conversion to run `HandleLocal` on concrete arguments: an
optional minus sign and the leading digits, 0 when there are none.  The
theorems about `HandleLocal` hold for every conversion. -/
def readInt : Str → Int
  | '-' :: cs => - (readDigits 0 cs : Int)
  | cs => (readDigits 0 cs : Int)

/-- A decimal integer literal: an optional minus sign and one digit or more,
nothing else.  This is what a numeric solve argument is taken to be. -/
def isNumeric : Str → Bool
  | '-' :: cs => cs ≠ [] ∧ cs.all Char.isDigit
  | cs => cs ≠ [] ∧ cs.all Char.isDigit

/-- A local user the way the host hands it to the modules first: not exempt,
no penalty, no slot, nothing written to it. -/
def freshUser : User :=
  { usertype := UserType.USERTYPE_LOCAL, exempt := false, CommandFloodPenalty := 0,
    serverIsULine := false, groups := none, solve_message := none, notices := [] }

/-! ## m_groups.cpp: the WHOIS line, and the host's matcher -/

/-- The numeric of the WHOIS line (`RPL_WHOISGROUPS`). -/
def RPL_WHOISGROUPS : Nat := 695

/-- A line handed to `Whois::Context::SendLine(numeric, groupstr, text)`. -/
structure WhoisLine where
  numeric : Nat
  groupstr : Str
  text : Str
deriving DecidableEq, Repr

/-- Modelled from the spec: `stdalgo::string::join` is declared by the host;
it gives "the space-joined string" of the names, one space between two
neighbours. -/
def join (sequence : GroupList) : Str :=
  List.intercalate [' '] sequence

/-- `ModuleGroups::OnWhois(whois)`, for the target `whois.GetTarget()`: the
lines it sends to the WHOIS context. -/
def OnWhois (target : User) : List WhoisLine :=
  match GroupExt.get target with
  | none => []
  | some groups =>
    [{ numeric := RPL_WHOISGROUPS, groupstr := join groups,
       text := ("is a member of these groups").toList }]

/-- Modelled from the spec: the host's wildcard matcher `InspIRCd::Match(str,
mask)`, "case-insensitive, supporting `*` and `?`": `*` stands for any run of
characters, `?` for one character, any other character for itself in either
case. -/
def Match (str : Str) (mask : Str) : Bool :=
  go mask str
where
  /-- The matcher, by recursion on the mask. -/
  go : Str → Str → Bool
  | [], s => s.isEmpty
  | m :: ms, s =>
    if m = '*' then s.tails.any (fun t => go ms t)
    else
      match s with
      | [] => false
      | c :: cs => (m = '?' ∨ m.toLower = c.toLower) && go ms cs

/-- No two neighbours in the string are both a space. -/
def noDoubleSpace (s : Str) : Prop :=
  s.Chain' (fun a b => ¬ (a = ' ' ∧ b = ' '))

instance (s : Str) : Decidable (noDoubleSpace s) := by
  unfold noDoubleSpace
  infer_instance

/-! ## m_solvemsg.cpp: the host's random source, and runs of events -/

/-- Modelled from the spec: `InspIRCd::GenRandomInt` is declared by the host.
The entry hook calls it with 9 to get "uniform random integers in `[0, 9]`":
the raw draw `rv` is reduced to the range from 0 to `max`, both included. -/
def GenRandomInt (max rv : Nat) : Nat :=
  rv % (max + 1)

/-- What a connection does at the gate after its entry: it sends a message,
or it issues `SOLVE` with one argument. -/
inductive GateEvent where
  | message (msgtarget : MessageTarget)
  | solve (arg : Str)
deriving DecidableEq, Repr

/-- The host dispatching one event: `OnUserPreMessage` for a message,
`CommandSolve::HandleLocal` for a solve attempt. -/
def gateStep (ConvToNum : Str → Int) (user : User) : GateEvent → User
  | GateEvent.message msgtarget => (OnUserPreMessage user msgtarget).2
  | GateEvent.solve arg => (HandleLocal ConvToNum user [arg]).2

/-- The host dispatching a run of events, one after the other. -/
def gateRun (ConvToNum : Str → Int) (user : User) (events : List GateEvent) : User :=
  events.foldl (gateStep ConvToNum) user

/-! ## m_pretenduser.cpp -/

/-- The loop of `CommandPretenduser::Handle` from index `i` on: `rest` holds
`parameters[i]`, `parameters[i+1]`, ... -/
def CommandPretenduser.loop (i : Nat) (cmd : Str) : List Str → Str
  | [] => cmd
  | p :: rest =>
    CommandPretenduser.loop (i + 1) ((if i > 1 then cmd ++ [' '] else cmd) ++ p) rest

/-- `CommandPretenduser::Handle(parameters, user)`.  `FindNick` is the host's
nick lookup, `none` for `NULL`.  The second component lists the calls
`ServerInstance->Parser->ProcessBuffer(cmd, u)` made, as pairs of the user
`u` and the line `cmd`. -/
def CommandPretenduser.Handle (FindNick : Str → Option User) (parameters : List Str)
    (_user : User) : CmdResult × List (User × Str) :=
  match FindNick (parameters.getD 0 []) with
  | none => (CmdResult.CMD_FAILURE, [])
  | some u =>
    let cmd := CommandPretenduser.loop 1 [] (parameters.drop 1)
    (CmdResult.CMD_SUCCESS, [(u, cmd)])

/-! ## Theorems: m_groups.cpp -/

theorem OnCheckBan.loop_deny_iff (Match : Str → Str → Bool) (submask : Str) (groups : GroupList) :
    OnCheckBan.loop Match submask groups = ModResult.MOD_RES_DENY ↔
      ∃ g ∈ groups, Match g submask = true := by
  induction groups with
  | nil => simp [OnCheckBan.loop]
  | cons g rest ih =>
    by_cases hg : Match g submask = true
    · simp [OnCheckBan.loop, hg]
    · simp [OnCheckBan.loop, hg, ih]

theorem OnCheckBan.loop_cases (Match : Str → Str → Bool) (submask : Str) (groups : GroupList) :
    OnCheckBan.loop Match submask groups = ModResult.MOD_RES_DENY ∨
      OnCheckBan.loop Match submask groups = ModResult.MOD_RES_PASSTHRU := by
  induction groups with
  | nil => simp [OnCheckBan.loop]
  | cons g rest ih =>
    by_cases hg : Match g submask = true
    · simp [OnCheckBan.loop, hg]
    · simpa [OnCheckBan.loop, hg] using ih

/-- The guard of `OnCheckBan` lets a mask through exactly when it is `g:`
followed by one character or more. -/
theorem groupMask_guard (mask : Str) :
    ¬ (mask.length ≤ 2 ∨ mask.head? ≠ some 'g' ∨ (mask.drop 1).head? ≠ some ':') ↔
      2 < mask.length ∧ ∃ submask, mask = 'g' :: ':' :: submask := by
  constructor
  · intro h
    simp only [not_or, not_le, ne_eq, not_not] at h
    obtain ⟨hlen, hg, hc⟩ := h
    refine ⟨hlen, ?_⟩
    match mask, hg, hc with
    | a :: b :: rest, hg, hc =>
      simp at hg hc
      exact ⟨rest, by rw [hg, hc]⟩
  · rintro ⟨hlen, submask, rfl⟩
    rintro (h | h | h)
    · omega
    · exact h rfl
    · exact h rfl

/-- C1: `OnCheckBan` returns `MOD_RES_DENY` exactly when the mask is longer
than two characters, starts with `g:`, the user's `"groups"` slot is present
and some group name in it matches the mask without its first two characters;
it returns `MOD_RES_PASSTHRU` whenever the mask has length at most 2, does not
start with `g:`, or the slot is absent, and it never returns anything but
these two results. -/
theorem OnCheckBan_deny_iff (Match : Str → Str → Bool) (user : User) (channel : Channel)
    (mask : Str) :
    (OnCheckBan Match user channel mask = ModResult.MOD_RES_DENY ↔
      2 < mask.length ∧ (∃ submask, mask = 'g' :: ':' :: submask) ∧
        ∃ groups, user.groups = some groups ∧ ∃ g ∈ groups, Match g (mask.drop 2) = true) ∧
    ((mask.length ≤ 2 ∨ (¬ ∃ submask, mask = 'g' :: ':' :: submask) ∨ user.groups = none) →
      OnCheckBan Match user channel mask = ModResult.MOD_RES_PASSTHRU) ∧
    (OnCheckBan Match user channel mask = ModResult.MOD_RES_DENY ∨
      OnCheckBan Match user channel mask = ModResult.MOD_RES_PASSTHRU) := by
  by_cases hguard : mask.length ≤ 2 ∨ mask.head? ≠ some 'g' ∨ (mask.drop 1).head? ≠ some ':'
  · have hno : ¬ (2 < mask.length ∧ ∃ submask, mask = 'g' :: ':' :: submask) :=
      fun h => (groupMask_guard mask).mpr h hguard
    have hval : OnCheckBan Match user channel mask = ModResult.MOD_RES_PASSTHRU := by
      simp only [OnCheckBan, if_pos hguard]
    refine ⟨?_, fun _ => hval, Or.inr hval⟩
    rw [hval]
    constructor
    · intro h; cases h
    · rintro ⟨h1, h2, _⟩; exact absurd ⟨h1, h2⟩ hno
  · obtain ⟨hlen, hpre⟩ := (groupMask_guard mask).mp hguard
    cases hslot : user.groups with
    | none =>
      have hval : OnCheckBan Match user channel mask = ModResult.MOD_RES_PASSTHRU := by
        simp only [OnCheckBan, if_neg hguard, GroupExt.get, hslot]
      refine ⟨?_, fun _ => hval, Or.inr hval⟩
      rw [hval]
      constructor
      · intro h; cases h
      · rintro ⟨_, _, groups, hg, _⟩; cases hg
    | some groups =>
      have hval : OnCheckBan Match user channel mask =
          OnCheckBan.loop Match (mask.drop 2) groups := by
        simp only [OnCheckBan, if_neg hguard, GroupExt.get, hslot]
      rw [hval]
      refine ⟨?_, ?_, OnCheckBan.loop_cases Match _ groups⟩
      · rw [OnCheckBan.loop_deny_iff]
        constructor
        · intro h; exact ⟨hlen, hpre, groups, rfl, h⟩
        · rintro ⟨_, _, groups2, hg, h⟩
          cases hg; exact h
      · rintro (h | h | h)
        · omega
        · exact absurd hpre h
        · cases h

/-! ### The flat set -/

theorem GroupList.mem_insert (x z : Str) (l : GroupList) :
    z ∈ GroupList.insert x l ↔ z = x ∨ z ∈ l := by
  induction l with
  | nil => simp [GroupList.insert]
  | cons y ys ih =>
    unfold GroupList.insert
    split_ifs with h1 h2
    · simp only [List.mem_cons, ih]; tauto
    · simp only [List.mem_cons]
    · have hxy : x = y := le_antisymm (not_lt.mp h1) (not_lt.mp h2)
      subst hxy
      simp only [List.mem_cons]; tauto

theorem GroupList.insert_ne_nil (x : Str) (l : GroupList) : GroupList.insert x l ≠ [] := by
  cases l with
  | nil => simp [GroupList.insert]
  | cons y ys =>
    unfold GroupList.insert
    split_ifs <;> simp

theorem GroupList.sorted_insert (x : Str) (l : GroupList) (h : l.Sorted (· < ·)) :
    (GroupList.insert x l).Sorted (· < ·) := by
  induction l with
  | nil => simp [GroupList.insert]
  | cons y ys ih =>
    have hys := List.sorted_cons.mp h
    unfold GroupList.insert
    split_ifs with h1 h2
    · refine List.sorted_cons.mpr ⟨?_, ih hys.2⟩
      intro b hb
      rcases (GroupList.mem_insert x b ys).mp hb with rfl | hb
      · exact h1
      · exact hys.1 b hb
    · refine List.sorted_cons.mpr ⟨?_, h⟩
      intro b hb
      rcases List.mem_cons.mp hb with rfl | hb
      · exact h2
      · exact lt_trans h2 (hys.1 b hb)
    · exact h

/-- Inserting names one after the other, as the loop of `unserialize` does. -/
theorem GroupList.mem_foldl_insert (names : List Str) (init : GroupList) (z : Str) :
    z ∈ names.foldl (fun l groupname => GroupList.insert groupname l) init ↔
      z ∈ names ∨ z ∈ init := by
  induction names generalizing init with
  | nil => simp
  | cons n rest ih =>
    simp only [List.foldl_cons, ih, GroupList.mem_insert, List.mem_cons]
    tauto

theorem GroupList.sorted_foldl_insert (names : List Str) (init : GroupList)
    (h : init.Sorted (· < ·)) :
    (names.foldl (fun l groupname => GroupList.insert groupname l) init).Sorted (· < ·) := by
  induction names generalizing init with
  | nil => simpa using h
  | cons n rest ih =>
    simp only [List.foldl_cons]
    exact ih _ (GroupList.sorted_insert n init h)

/-! ### The token stream -/

theorem sepTokens_cons_space (cur rest : Str) (hcur : cur ≠ []) :
    sepTokens cur (' ' :: rest) = cur :: sepTokens [] rest := by
  rw [sepTokens, if_pos rfl, if_neg hcur]

theorem sepTokens_cons_char (cur rest : Str) (c : Char) (hc : c ≠ ' ') :
    sepTokens cur (c :: rest) = sepTokens (cur ++ [c]) rest := by
  rw [sepTokens, if_neg hc]

theorem sepTokens_eq_nil_iff (cur s : Str) :
    sepTokens cur s = [] ↔ cur = [] ∧ ∀ c ∈ s, c = ' ' := by
  induction s generalizing cur with
  | nil => simp [sepTokens]
  | cons c rest ih =>
    unfold sepTokens
    by_cases hc : c = ' '
    · by_cases hcur : cur = []
      · simp [hc, hcur, ih]
      · simp [hc, hcur]
    · simp [hc, ih]

/-- Every token is a non-empty run without a space. -/
theorem sepTokens_token (cur s : Str) (hcur : ' ' ∉ cur) :
    ∀ t ∈ sepTokens cur s, t ≠ [] ∧ ' ' ∉ t := by
  induction s generalizing cur with
  | nil =>
    intro t ht
    by_cases h : cur = []
    · simp [sepTokens, h] at ht
    · simp only [sepTokens, if_neg h, List.mem_singleton] at ht
      subst ht; exact ⟨h, hcur⟩
  | cons c rest ih =>
    intro t ht
    unfold sepTokens at ht
    by_cases hc : c = ' '
    · by_cases h : cur = []
      · simp only [hc, h, if_true] at ht
        exact ih [] (by simp) t ht
      · simp only [hc, if_true, if_neg h, List.mem_cons] at ht
        rcases ht with rfl | ht
        · exact ⟨h, hcur⟩
        · exact ih [] (by simp) t ht
    · simp only [if_neg hc] at ht
      refine ih (cur ++ [c]) ?_ t ht
      simp only [List.mem_append, List.mem_singleton, not_or]
      exact ⟨hcur, fun h => hc h.symm⟩

/-- Reading a run without a space only extends the current token. -/
theorem sepTokens_append (cur t rest : Str) (ht : ' ' ∉ t) :
    sepTokens cur (t ++ rest) = sepTokens (cur ++ t) rest := by
  induction t generalizing cur with
  | nil => simp
  | cons c cs ih =>
    have hc : c ≠ ' ' := fun h => ht (by simp [h])
    have hcs : ' ' ∉ cs := fun h => ht (by simp [h])
    rw [List.cons_append, sepTokens_cons_char cur _ c hc, ih (cur ++ [c]) hcs]
    simp

/-- The stream reads back a list of names that were written with one space
before each of them, after a first name `cur`. -/
theorem sepTokens_spaced (cur : Str) (names : List Str) (hcur : cur ≠ [])
    (hnames : ∀ t ∈ names, t ≠ [] ∧ ' ' ∉ t) :
    sepTokens cur (names.flatMap fun t => ' ' :: t) = cur :: names := by
  induction names generalizing cur with
  | nil => simp [sepTokens, hcur]
  | cons n rest ih =>
    have hn := hnames n (by simp)
    rw [List.flatMap_cons, List.cons_append, sepTokens_cons_space cur _ hcur,
      sepTokens_append [] n _ hn.2, List.nil_append,
      ih n hn.1 (fun t ht => hnames t (by simp [ht]))]

/-! ### serialize -/

theorem GroupExt.foldl_serializeStep (buffer : Str) (names : List Str) (hb : buffer ≠ []) :
    names.foldl GroupExt.serializeStep buffer = buffer ++ names.flatMap fun t => ' ' :: t := by
  induction names generalizing buffer with
  | nil => simp
  | cons n rest ih =>
    simp only [List.foldl_cons, List.flatMap_cons]
    have hstep : GroupExt.serializeStep buffer n = buffer ++ ' ' :: n := by
      simp [GroupExt.serializeStep, hb]
    rw [hstep, ih _ (by simp)]
    simp

/-- What `serialize` writes for a list of non-empty names: the first name,
then every other name after one space. -/
theorem GroupExt.serialize_cons (n : Str) (rest : List Str) (hn : n ≠ []) :
    GroupExt.serialize (some (n :: rest)) = n ++ rest.flatMap fun t => ' ' :: t := by
  have hstep : GroupExt.serializeStep [] n = n := by simp [GroupExt.serializeStep]
  simp only [GroupExt.serialize, List.foldl_cons, hstep]
  exact GroupExt.foldl_serializeStep n rest hn

/-- The stream reads back exactly the names `serialize` wrote, when they are
non-empty and hold no space. -/
theorem spacesepstream_serialize (names : GroupList)
    (hnames : ∀ t ∈ names, t ≠ [] ∧ ' ' ∉ t) :
    spacesepstream (GroupExt.serialize (some names)) = names := by
  cases names with
  | nil => simp [GroupExt.serialize, spacesepstream, sepTokens]
  | cons n rest =>
    have hn := hnames n (by simp)
    rw [GroupExt.serialize_cons n rest hn.1, spacesepstream, sepTokens_append [] n _ hn.2]
    simp only [List.nil_append]
    exact sepTokens_spaced n rest hn.1 (fun t ht => hnames t (by simp [ht]))

/-! ### unserialize -/

theorem GroupExt.mem_newgrouplist (value z : Str) :
    z ∈ GroupExt.newgrouplist value ↔ z ∈ spacesepstream value := by
  simp [GroupExt.newgrouplist, GroupList.mem_foldl_insert]

theorem GroupExt.newgrouplist_sorted (value : Str) :
    (GroupExt.newgrouplist value).Sorted (· < ·) :=
  GroupList.sorted_foldl_insert _ [] (by simp)

theorem GroupExt.newgrouplist_eq_nil_iff (value : Str) :
    GroupExt.newgrouplist value = [] ↔ spacesepstream value = [] := by
  constructor
  · intro h
    apply List.eq_nil_iff_forall_not_mem.mpr
    intro z hz
    have := (GroupExt.mem_newgrouplist value z).mpr hz
    rw [h] at this
    exact absurd this (List.not_mem_nil z)
  · intro h
    simp [GroupExt.newgrouplist, h]

theorem GroupExt.unserialize_groups (container : User) (value : Str) :
    (GroupExt.unserialize container value).groups =
      if GroupExt.newgrouplist value = [] then none else some (GroupExt.newgrouplist value) := by
  unfold GroupExt.unserialize
  by_cases h : GroupExt.newgrouplist value = []
  · simp [h, GroupExt.unset_raw]
  · simp [h, GroupExt.set_raw]

/-- C4: when the update string holds no token, that is when it is empty or
made of spaces only, the `"groups"` slot is absent after
`GroupExt::unserialize`, whatever the container held before. -/
theorem unserialize_blank_clears (container : User) (s : Str) (h : ∀ c ∈ s, c = ' ') :
    spacesepstream s = [] ∧ (GroupExt.unserialize container s).groups = none := by
  have htok : spacesepstream s = [] := (sepTokens_eq_nil_iff [] s).mpr ⟨rfl, h⟩
  refine ⟨htok, ?_⟩
  rw [GroupExt.unserialize_groups, if_pos ((GroupExt.newgrouplist_eq_nil_iff s).mpr htok)]

theorem unserialize_blank_clears_witness :
    (∀ c ∈ ("   ").toList, c = ' ') ∧
      spacesepstream ("   ").toList = [] ∧
      (GroupExt.unserialize
        { freshUser with groups := some [("ops").toList, ("vips").toList] }
        ("   ").toList).groups = none :=
  ⟨by decide, unserialize_blank_clears _ ("   ").toList (by decide)⟩

/-- C5: when the update string holds at least one token, the string
`GroupExt::serialize` writes for the slot `GroupExt::unserialize` installed
splits into space-separated tokens that are exactly the tokens of the update
string: the slot is present, the same names occur on both sides, and every
one of them occurs exactly once in the output. -/
theorem serialize_unserialize_tokens (container : User) (s : Str)
    (h : spacesepstream s ≠ []) :
    (GroupExt.unserialize container s).groups ≠ none ∧
    (∀ t, t ∈ spacesepstream (GroupExt.serialize (GroupExt.unserialize container s).groups) ↔
      t ∈ spacesepstream s) ∧
    (spacesepstream (GroupExt.serialize (GroupExt.unserialize container s).groups)).Nodup ∧
    (∀ t ∈ spacesepstream s,
      (spacesepstream (GroupExt.serialize (GroupExt.unserialize container s).groups)).count t
        = 1) := by
  have hne : GroupExt.newgrouplist s ≠ [] :=
    fun hnil => h ((GroupExt.newgrouplist_eq_nil_iff s).mp hnil)
  have hslot : (GroupExt.unserialize container s).groups = some (GroupExt.newgrouplist s) := by
    rw [GroupExt.unserialize_groups, if_neg hne]
  have hnames : ∀ t ∈ GroupExt.newgrouplist s, t ≠ [] ∧ ' ' ∉ t := fun t ht =>
    sepTokens_token [] s (by simp) t ((GroupExt.mem_newgrouplist s t).mp ht)
  have hback : spacesepstream (GroupExt.serialize (GroupExt.unserialize container s).groups)
      = GroupExt.newgrouplist s := by
    rw [hslot]; exact spacesepstream_serialize _ hnames
  have hnodup : (GroupExt.newgrouplist s).Nodup := (GroupExt.newgrouplist_sorted s).nodup
  rw [hback]
  refine ⟨by rw [hslot]; simp, fun t => GroupExt.mem_newgrouplist s t, hnodup, ?_⟩
  intro t ht
  have hcount := List.count_eq_one_of_mem hnodup ((GroupExt.mem_newgrouplist s t).mpr ht)
  rw [← hcount]
  simp only [List.count]
  congr 1
  funext x
  rw [Bool.eq_iff_iff]
  simp

theorem serialize_unserialize_tokens_witness :
    spacesepstream (" vips ops  vips").toList ≠ [] ∧
    (GroupExt.unserialize freshUser (" vips ops  vips").toList).groups ≠ none ∧
    (∀ t, t ∈ spacesepstream (GroupExt.serialize
        (GroupExt.unserialize freshUser (" vips ops  vips").toList).groups) ↔
      t ∈ spacesepstream (" vips ops  vips").toList) ∧
    (spacesepstream (GroupExt.serialize
        (GroupExt.unserialize freshUser (" vips ops  vips").toList).groups)).Nodup ∧
    (∀ t ∈ spacesepstream (" vips ops  vips").toList,
      (spacesepstream (GroupExt.serialize
        (GroupExt.unserialize freshUser (" vips ops  vips").toList).groups)).count t = 1) :=
  ⟨by decide, serialize_unserialize_tokens freshUser (" vips ops  vips").toList (by decide)⟩

/-! ## Theorems: m_solvemsg.cpp -/

/-- A value of type `int` is kept as it is. -/
theorem intWrap_of_isInt (x : Int) (h : isInt x) : intWrap x = x := by
  unfold isInt INT_MIN INT_MAX at h
  unfold intWrap
  omega

/-- The `int` sum is the sum when the sum is a value of type `int`. -/
theorem intAdd_of_isInt (a b : Int) (h : isInt (a + b)) : intAdd a b = a + b :=
  intWrap_of_isInt (a + b) h

/-- The exempt branch of `HandleLocal`. -/
theorem HandleLocal_exempt (ConvToNum : Str → Int) (user : User) (parameters : List Str)
    (hex : user.exempt = true) :
    HandleLocal ConvToNum user parameters =
      (CmdResult.CMD_FAILURE, user.WriteNotice noticeNoNeed) := by
  simp [HandleLocal, hex]

/-- The branch of `HandleLocal` for a user without a problem. -/
theorem HandleLocal_absent (ConvToNum : Str → Int) (user : User) (parameters : List Str)
    (hex : user.exempt = false) (hslot : user.solve_message = none) :
    HandleLocal ConvToNum user parameters =
      (CmdResult.CMD_FAILURE, user.WriteNotice noticeAlreadySolved) := by
  simp [HandleLocal, hex, hslot]

/-- The wrong-answer branch of `HandleLocal`. -/
theorem HandleLocal_wrong (ConvToNum : Str → Int) (user : User) (arg : Str) (p : Problem)
    (hex : user.exempt = false) (hslot : user.solve_message = some p)
    (hne : ConvToNum arg ≠ intAdd p.first p.second) :
    HandleLocal ConvToNum user [arg] =
      (CmdResult.CMD_FAILURE,
        { user with
          notices := user.notices ++ [noticeWrong arg]
          CommandFloodPenalty := user.CommandFloodPenalty + 10000 }) := by
  simp [HandleLocal, hex, hslot, hne, User.WriteNotice]

/-- The right-answer branch of `HandleLocal`. -/
theorem HandleLocal_right (ConvToNum : Str → Int) (user : User) (arg : Str) (p : Problem)
    (hex : user.exempt = false) (hslot : user.solve_message = some p)
    (heq : ConvToNum arg = intAdd p.first p.second) :
    HandleLocal ConvToNum user [arg] =
      (CmdResult.CMD_SUCCESS,
        { user with
          solve_message := none
          notices := user.notices ++ [noticeCorrect arg] }) := by
  simp [HandleLocal, hex, hslot, heq, User.WriteNotice]

/-- At the operands (2147483647, 1) the `int` sum wraps around to `INT_MIN`,
and that is the answer `HandleLocal` accepts. -/
theorem HandleLocal_wrapped_sum :
    (HandleLocal readInt { freshUser with solve_message := some ⟨2147483647, 1, false⟩ }
      [("-2147483648").toList]).1 = CmdResult.CMD_SUCCESS := by
  decide

/-- C2: for a non-exempt connection whose slot holds `p`, with `int` operands
whose sum is a value of type `int`, and an argument the conversion reads as
the number `n`, `HandleLocal` returns success exactly when
`n = p.first + p.second`; on success the slot is absent afterwards and the
flood penalty is what it was. -/
theorem HandleLocal_success_iff (ConvToNum : Str → Int) (user : User) (arg : Str)
    (p : Problem) (n : Int) (hex : user.exempt = false)
    (hslot : user.solve_message = some p) (_hp : p.inRange)
    (hsum : isInt (p.first + p.second)) (hn : ConvToNum arg = n) :
    ((HandleLocal ConvToNum user [arg]).1 = CmdResult.CMD_SUCCESS ↔
      n = p.first + p.second) ∧
    ((HandleLocal ConvToNum user [arg]).1 = CmdResult.CMD_SUCCESS →
      (HandleLocal ConvToNum user [arg]).2.solve_message = none ∧
      (HandleLocal ConvToNum user [arg]).2.CommandFloodPenalty = user.CommandFloodPenalty) := by
  subst hn
  have hadd := intAdd_of_isInt p.first p.second hsum
  by_cases h : ConvToNum arg = intAdd p.first p.second
  · rw [HandleLocal_right ConvToNum user arg p hex hslot h]
    exact ⟨⟨fun _ => h.trans hadd, fun _ => rfl⟩, fun _ => ⟨rfl, rfl⟩⟩
  · rw [HandleLocal_wrong ConvToNum user arg p hex hslot h]
    refine ⟨⟨fun hs => ?_, fun hs => absurd (hs.trans hadd.symm) h⟩, fun hs => ?_⟩ <;> cases hs

theorem HandleLocal_success_iff_witness :
    ({ freshUser with solve_message := some ⟨3, 4, false⟩ } : User).exempt = false ∧
    ({ freshUser with solve_message := some ⟨3, 4, false⟩ } : User).solve_message
      = some ⟨3, 4, false⟩ ∧
    (⟨3, 4, false⟩ : Problem).inRange ∧
    isInt ((⟨3, 4, false⟩ : Problem).first + (⟨3, 4, false⟩ : Problem).second) ∧
    readInt ("7").toList = 7 ∧
    ((HandleLocal readInt { freshUser with solve_message := some ⟨3, 4, false⟩ }
        [("7").toList]).1 = CmdResult.CMD_SUCCESS ↔
      (7 : Int) = (⟨3, 4, false⟩ : Problem).first + (⟨3, 4, false⟩ : Problem).second) ∧
    ((HandleLocal readInt { freshUser with solve_message := some ⟨3, 4, false⟩ }
        [("7").toList]).1 = CmdResult.CMD_SUCCESS →
      (HandleLocal readInt { freshUser with solve_message := some ⟨3, 4, false⟩ }
        [("7").toList]).2.solve_message = none ∧
      (HandleLocal readInt { freshUser with solve_message := some ⟨3, 4, false⟩ }
        [("7").toList]).2.CommandFloodPenalty
        = ({ freshUser with solve_message := some ⟨3, 4, false⟩ } : User).CommandFloodPenalty) :=
  ⟨rfl, rfl, by decide, by decide, by decide,
    HandleLocal_success_iff readInt { freshUser with solve_message := some ⟨3, 4, false⟩ }
      ("7").toList ⟨3, 4, false⟩ 7 rfl rfl (by decide) (by decide) (by decide)⟩

/-- C6: for a non-exempt connection whose slot holds `p`, with `int` operands
whose sum is a value of type `int`, and an answer the conversion reads as a
number other than `p.first + p.second`, `HandleLocal` returns failure, the
slot still holds the same `p` (same operands, same `warned`), and the flood
penalty has grown by exactly 10000. -/
theorem HandleLocal_wrong_answer (ConvToNum : Str → Int) (user : User) (arg : Str)
    (p : Problem) (n : Int) (hex : user.exempt = false)
    (hslot : user.solve_message = some p) (_hp : p.inRange)
    (hsum : isInt (p.first + p.second)) (hn : ConvToNum arg = n)
    (hne : n ≠ p.first + p.second) :
    (HandleLocal ConvToNum user [arg]).1 = CmdResult.CMD_FAILURE ∧
    (HandleLocal ConvToNum user [arg]).2.solve_message = some p ∧
    (HandleLocal ConvToNum user [arg]).2.CommandFloodPenalty
      = user.CommandFloodPenalty + 10000 := by
  subst hn
  have hne2 : ConvToNum arg ≠ intAdd p.first p.second := by
    rw [intAdd_of_isInt p.first p.second hsum]
    exact hne
  rw [HandleLocal_wrong ConvToNum user arg p hex hslot hne2]
  exact ⟨rfl, hslot, rfl⟩

theorem HandleLocal_wrong_answer_witness :
    ({ freshUser with solve_message := some ⟨3, 4, true⟩ } : User).exempt = false ∧
    (⟨3, 4, true⟩ : Problem).inRange ∧
    isInt ((⟨3, 4, true⟩ : Problem).first + (⟨3, 4, true⟩ : Problem).second) ∧
    readInt ("6").toList = 6 ∧
    (6 : Int) ≠ (⟨3, 4, true⟩ : Problem).first + (⟨3, 4, true⟩ : Problem).second ∧
    (HandleLocal readInt { freshUser with solve_message := some ⟨3, 4, true⟩ }
      [("6").toList]).1 = CmdResult.CMD_FAILURE ∧
    (HandleLocal readInt { freshUser with solve_message := some ⟨3, 4, true⟩ }
      [("6").toList]).2.solve_message = some ⟨3, 4, true⟩ ∧
    (HandleLocal readInt { freshUser with solve_message := some ⟨3, 4, true⟩ }
      [("6").toList]).2.CommandFloodPenalty
      = ({ freshUser with solve_message := some ⟨3, 4, true⟩ } : User).CommandFloodPenalty
        + 10000 :=
  ⟨rfl, by decide, by decide, by decide, by decide,
    HandleLocal_wrong_answer readInt { freshUser with solve_message := some ⟨3, 4, true⟩ }
      ("6").toList ⟨3, 4, true⟩ 6 rfl rfl (by decide) (by decide) (by decide) (by decide)⟩

/-- The already-solved notice is no wrong-answer notice: the two differ in
their third character. -/
theorem noticeAlreadySolved_ne_noticeWrong (arg : Str) :
    noticeAlreadySolved ≠ noticeWrong arg := by
  intro h
  have h2 : noticeAlreadySolved.take 3 = (noticeWrong arg).take 3 := by rw [h]
  have h3 : noticeAlreadySolved.take 3 = ['*', '*', ' '] := by decide
  have h4 : (noticeWrong arg).take 3 = ['*', '*', '*'] := rfl
  rw [h3, h4] at h2
  exact absurd h2 (by decide)

/-- C7: after a solve attempt of a non-exempt connection succeeded, a second
attempt with any argument fails, writes the already-solved notice and nothing
else, a line that is not the wrong-answer notice, adds no flood penalty, and
leaves the slot absent. -/
theorem HandleLocal_after_success (ConvToNum : Str → Int) (user : User) (arg1 arg2 : Str)
    (hex : user.exempt = false)
    (hfirst : (HandleLocal ConvToNum user [arg1]).1 = CmdResult.CMD_SUCCESS) :
    (HandleLocal ConvToNum (HandleLocal ConvToNum user [arg1]).2 [arg2]).1
      = CmdResult.CMD_FAILURE ∧
    (HandleLocal ConvToNum (HandleLocal ConvToNum user [arg1]).2 [arg2]).2.notices
      = (HandleLocal ConvToNum user [arg1]).2.notices ++ [noticeAlreadySolved] ∧
    noticeAlreadySolved ≠ noticeWrong arg2 ∧
    (HandleLocal ConvToNum (HandleLocal ConvToNum user [arg1]).2 [arg2]).2.CommandFloodPenalty
      = (HandleLocal ConvToNum user [arg1]).2.CommandFloodPenalty ∧
    (HandleLocal ConvToNum (HandleLocal ConvToNum user [arg1]).2 [arg2]).2.solve_message
      = none := by
  cases hslot : user.solve_message with
  | none =>
    rw [HandleLocal_absent ConvToNum user [arg1] hex hslot] at hfirst
    cases hfirst
  | some p =>
    by_cases h : ConvToNum arg1 = intAdd p.first p.second
    · rw [HandleLocal_right ConvToNum user arg1 p hex hslot h]
      dsimp only
      rw [HandleLocal_absent ConvToNum
        { user with solve_message := none, notices := user.notices ++ [noticeCorrect arg1] }
        [arg2] hex rfl]
      exact ⟨rfl, rfl, noticeAlreadySolved_ne_noticeWrong arg2, rfl, rfl⟩
    · rw [HandleLocal_wrong ConvToNum user arg1 p hex hslot h] at hfirst
      cases hfirst

theorem HandleLocal_after_success_witness :
    ({ freshUser with solve_message := some ⟨3, 4, true⟩ } : User).exempt = false ∧
    (HandleLocal readInt { freshUser with solve_message := some ⟨3, 4, true⟩ }
      [("7").toList]).1 = CmdResult.CMD_SUCCESS ∧
    (HandleLocal readInt (HandleLocal readInt
      { freshUser with solve_message := some ⟨3, 4, true⟩ } [("7").toList]).2
      [("7").toList]).1 = CmdResult.CMD_FAILURE :=
  ⟨rfl, by decide,
    (HandleLocal_after_success readInt { freshUser with solve_message := some ⟨3, 4, true⟩ }
      ("7").toList ("7").toList rfl (by decide)).1⟩

/-- The two branches of `OnUserPreMessage` that do not pass the message
through: a local, non-exempt sender with a problem writing to a user whose
server is not U-lined. -/
theorem OnUserPreMessage_gated (user dest : User) (p : Problem)
    (hlocal : user.usertype = UserType.USERTYPE_LOCAL) (hex : user.exempt = false)
    (hdest : dest.serverIsULine = false) (hslot : user.solve_message = some p) :
    OnUserPreMessage user (MessageTarget.user dest) =
      if p.warned then (ModResult.MOD_RES_DENY, user)
      else
        (ModResult.MOD_RES_DENY,
          { user with
            solve_message := some { p with warned := true }
            notices := user.notices ++
              [noticeBefore, noticeQuestion p.first p.second, noticeHowTo] }) := by
  simp [OnUserPreMessage, hlocal, hex, hdest, hslot, MessageTarget.type, User.WriteNotice]

/-- Every way around the gate: `OnUserPreMessage` passes the message through
and leaves the user as it was. -/
theorem OnUserPreMessage_open (user : User) (msgtarget : MessageTarget)
    (h : user.usertype ≠ UserType.USERTYPE_LOCAL ∨ user.exempt = true ∨
      (∀ dest, msgtarget = MessageTarget.user dest → dest.serverIsULine = true) ∨
      user.solve_message = none) :
    OnUserPreMessage user msgtarget = (ModResult.MOD_RES_PASSTHRU, user) := by
  unfold OnUserPreMessage
  split_ifs with hguard
  · rfl
  · simp only [not_or, ne_eq, not_not, Bool.not_eq_true] at hguard
    obtain ⟨hlocal, hex, htype⟩ := hguard
    cases msgtarget with
    | channel d => rfl
    | server d => rfl
    | user dest =>
      by_cases hu : dest.serverIsULine = true
      · simp [hu]
      · cases hslot : user.solve_message with
        | none => simp [hu]
        | some p =>
          rcases h with h | h | h | h
          · exact absurd hlocal h
          · rw [hex] at h; cases h
          · exact absurd (h dest rfl) hu
          · rw [hslot] at h; cases h

/-- C3: `OnUserPreMessage` returns `MOD_RES_DENY` exactly when the sender is
local and not exempt, the target is a user whose server is not U-lined, and
the sender's slot is present; in every other case it returns
`MOD_RES_PASSTHRU` and leaves the sender unchanged.  In particular an exempt
sender and a sender without slot are let through. -/
theorem OnUserPreMessage_deny_iff (user : User) (msgtarget : MessageTarget) :
    ((OnUserPreMessage user msgtarget).1 = ModResult.MOD_RES_DENY ↔
      user.usertype = UserType.USERTYPE_LOCAL ∧ user.exempt = false ∧
      (∃ dest, msgtarget = MessageTarget.user dest ∧ dest.serverIsULine = false) ∧
      user.solve_message ≠ none) ∧
    ((OnUserPreMessage user msgtarget).1 ≠ ModResult.MOD_RES_DENY →
      OnUserPreMessage user msgtarget = (ModResult.MOD_RES_PASSTHRU, user)) ∧
    (user.exempt = true ∨ user.solve_message = none →
      OnUserPreMessage user msgtarget = (ModResult.MOD_RES_PASSTHRU, user)) := by
  by_cases hgate : user.usertype = UserType.USERTYPE_LOCAL ∧ user.exempt = false ∧
      (∃ dest, msgtarget = MessageTarget.user dest ∧ dest.serverIsULine = false) ∧
      user.solve_message ≠ none
  · obtain ⟨hlocal, hex, ⟨dest, rfl, hdest⟩, hslot⟩ := hgate
    obtain ⟨p, hp⟩ := Option.ne_none_iff_exists'.mp hslot
    have hdeny : (OnUserPreMessage user (MessageTarget.user dest)).1
        = ModResult.MOD_RES_DENY := by
      rw [OnUserPreMessage_gated user dest p hlocal hex hdest hp]
      split_ifs <;> rfl
    refine ⟨⟨fun _ => ⟨hlocal, hex, ⟨dest, rfl, hdest⟩, hslot⟩, fun _ => hdeny⟩,
      fun h => absurd hdeny h, ?_⟩
    rintro (h | h)
    · rw [hex] at h; cases h
    · exact absurd h hslot
  · have hopen : OnUserPreMessage user msgtarget = (ModResult.MOD_RES_PASSTHRU, user) := by
      apply OnUserPreMessage_open
      by_contra hcon
      simp only [not_or, ne_eq, not_not, Bool.not_eq_true, not_forall] at hcon
      obtain ⟨h1, h2, ⟨dest, hd, hd2⟩, h4⟩ := hcon
      exact hgate ⟨h1, h2, ⟨dest, hd, by simpa using hd2⟩, h4⟩
    refine ⟨⟨fun h => ?_, fun h => absurd h hgate⟩, fun _ => hopen, fun _ => hopen⟩
    rw [hopen] at h
    cases h

/-- After the first blocked attempt the gate is silent: a warned sender is
denied and nothing about it changes. -/
theorem sendAll_warned (user : User) (p : Problem) (ts : List MessageTarget)
    (hlocal : user.usertype = UserType.USERTYPE_LOCAL) (hex : user.exempt = false)
    (hslot : user.solve_message = some p) (hw : p.warned = true)
    (hts : ∀ x ∈ ts, ∃ dest, x = MessageTarget.user dest ∧ dest.serverIsULine = false) :
    sendAll user ts = (List.replicate ts.length ModResult.MOD_RES_DENY, user) := by
  induction ts with
  | nil => rfl
  | cons t rest ih =>
    obtain ⟨dest, rfl, hdest⟩ := hts t (by simp)
    have hstep := OnUserPreMessage_gated user dest p hlocal hex hdest hslot
    rw [if_pos hw] at hstep
    simp only [sendAll, hstep, List.length_cons, List.replicate_succ]
    rw [ih (fun x hx => hts x (by simp [hx]))]

/-- The question line is neither of the two lines written around it. -/
theorem noticeQuestion_ne (first second : Int) :
    noticeQuestion first second ≠ noticeBefore ∧
      noticeQuestion first second ≠ noticeHowTo := by
  have h1 : (noticeQuestion first second).take 5 = ['*', '*', '*', ' ', 'W'] := rfl
  have h2 : noticeBefore.take 5 = ['*', '*', '*', ' ', 'B'] := by decide
  have h3 : noticeHowTo.take 5 = ['*', '*', '*', ' ', 'Y'] := by decide
  constructor
  · intro h
    rw [h, h2] at h1
    exact absurd h1 (by decide)
  · intro h
    rw [h, h3] at h1
    exact absurd h1 (by decide)

/-- C8: a local, non-exempt connection whose slot is present with
`warned = false` sends `k >= 1` messages to users on ordinary servers.  Every
attempt is denied.  The first one sets `warned` and writes the challenge, the
question line with the slot's operands between its two fixed lines, so the
question is written exactly once; the attempts after it write nothing and
change nothing. -/
theorem challenge_shown_once (user : User) (p : Problem) (t : MessageTarget)
    (ts : List MessageTarget)
    (hlocal : user.usertype = UserType.USERTYPE_LOCAL) (hex : user.exempt = false)
    (hslot : user.solve_message = some p) (hw : p.warned = false)
    (hts : ∀ x ∈ t :: ts, ∃ dest, x = MessageTarget.user dest ∧ dest.serverIsULine = false) :
    (sendAll user (t :: ts)).1 = List.replicate (ts.length + 1) ModResult.MOD_RES_DENY ∧
    (OnUserPreMessage user t).2 =
      { user with
        solve_message := some { p with warned := true }
        notices := user.notices ++
          [noticeBefore, noticeQuestion p.first p.second, noticeHowTo] } ∧
    ([noticeBefore, noticeQuestion p.first p.second, noticeHowTo].filter
      (fun line => line = noticeQuestion p.first p.second)).length = 1 ∧
    (∀ x ∈ ts, OnUserPreMessage (OnUserPreMessage user t).2 x
      = (ModResult.MOD_RES_DENY, (OnUserPreMessage user t).2)) ∧
    (sendAll user (t :: ts)).2 = (OnUserPreMessage user t).2 := by
  obtain ⟨dest, rfl, hdest⟩ := hts _ (List.mem_cons_self _ _)
  have hrest : ∀ x ∈ ts, ∃ d, x = MessageTarget.user d ∧ d.serverIsULine = false :=
    fun x hx => hts x (List.mem_cons_of_mem _ hx)
  have hstep := OnUserPreMessage_gated user dest p hlocal hex hdest hslot
  rw [hw] at hstep
  simp only [Bool.false_eq_true, if_false] at hstep
  have hall := sendAll_warned
    { user with
      solve_message := some { p with warned := true }
      notices := user.notices ++ [noticeBefore, noticeQuestion p.first p.second, noticeHowTo] }
    { p with warned := true } ts hlocal hex rfl rfl hrest
  have hq := noticeQuestion_ne p.first p.second
  refine ⟨?_, ?_, ?_, ?_, ?_⟩
  · simp only [sendAll, hstep, hall, List.replicate_succ]
  · rw [hstep]
  · simp [List.filter, hq.1.symm, hq.2.symm]
  · intro x hx
    obtain ⟨d, rfl, hd⟩ := hrest x hx
    rw [hstep]
    have h2 := OnUserPreMessage_gated
      { user with
        solve_message := some { p with warned := true }
        notices := user.notices ++
          [noticeBefore, noticeQuestion p.first p.second, noticeHowTo] }
      d { p with warned := true } hlocal hex hd rfl
    rw [if_pos rfl] at h2
    exact h2
  · simp only [sendAll, hstep, hall]

theorem challenge_shown_once_witness :
    ({ freshUser with solve_message := some ⟨3, 4, false⟩ } : User).usertype
      = UserType.USERTYPE_LOCAL ∧
    (sendAll { freshUser with solve_message := some ⟨3, 4, false⟩ }
      [MessageTarget.user freshUser, MessageTarget.user freshUser,
        MessageTarget.user freshUser]).1
      = [ModResult.MOD_RES_DENY, ModResult.MOD_RES_DENY, ModResult.MOD_RES_DENY] ∧
    (sendAll { freshUser with solve_message := some ⟨3, 4, false⟩ }
      [MessageTarget.user freshUser, MessageTarget.user freshUser,
        MessageTarget.user freshUser]).2.notices
      = [noticeBefore, ("*** What is 3 + 4?").toList, noticeHowTo] := by
  have h := challenge_shown_once { freshUser with solve_message := some ⟨3, 4, false⟩ }
    ⟨3, 4, false⟩ (MessageTarget.user freshUser)
    [MessageTarget.user freshUser, MessageTarget.user freshUser] rfl rfl rfl rfl
    (by intro x hx; simp at hx; exact ⟨freshUser, hx, rfl⟩)
  refine ⟨rfl, h.1, ?_⟩
  rw [h.2.2.2.2, h.2.1]
  decide

/-- The slot `OnUserPostInit` installs; the hook does not read `exempt`. -/
theorem OnUserPostInit_slot (GenRandomInt : Nat → Nat → Nat) (rv1 rv2 : Nat) (user : User) :
    (OnUserPostInit GenRandomInt rv1 rv2 user).solve_message
      = some ⟨(GenRandomInt 9 rv1 : Nat), (GenRandomInt 9 rv2 : Nat), false⟩ := rfl

/-- C9, as stated, fails: whatever the host's random source is, the
registration hook leaves an exempt connection with the slot present. -/
theorem exempt_slot_counterexample :
    ¬ ∃ GenRandomInt : Nat → Nat → Nat, ∀ (rv1 rv2 : Nat) (user : User),
      user.exempt = true → (OnUserPostInit GenRandomInt rv1 rv2 user).solve_message = none := by
  rintro ⟨G, h⟩
  have h2 := h 3 4 { freshUser with exempt := true } rfl
  rw [OnUserPostInit_slot] at h2
  cases h2

/-- C9, amended: the registration hook installs the slot on an exempt
connection as on any other, with the two results of `GenRandomInt(9)` and
`warned = false`, and changes nothing else.  On the exempt connection the slot
is never consulted: `OnUserPreMessage` passes every message through and
leaves the state as it is, and `HandleLocal` fails with the notice that no
problem needs solving, the slot staying in place. -/
theorem OnUserPostInit_exempt (GenRandomInt : Nat → Nat → Nat) (rv1 rv2 : Nat) (user : User)
    (hex : user.exempt = true) :
    OnUserPostInit GenRandomInt rv1 rv2 user =
      { user with
        solve_message :=
          some ⟨(GenRandomInt 9 rv1 : Nat), (GenRandomInt 9 rv2 : Nat), false⟩ } ∧
    (∀ msgtarget,
      OnUserPreMessage (OnUserPostInit GenRandomInt rv1 rv2 user) msgtarget
        = (ModResult.MOD_RES_PASSTHRU, OnUserPostInit GenRandomInt rv1 rv2 user)) ∧
    (∀ (ConvToNum : Str → Int) (arg : Str),
      HandleLocal ConvToNum (OnUserPostInit GenRandomInt rv1 rv2 user) [arg]
        = (CmdResult.CMD_FAILURE,
            (OnUserPostInit GenRandomInt rv1 rv2 user).WriteNotice noticeNoNeed)) := by
  refine ⟨rfl, fun msgtarget => ?_, fun ConvToNum arg => ?_⟩
  · exact OnUserPreMessage_open _ msgtarget (Or.inr (Or.inl hex))
  · exact HandleLocal_exempt ConvToNum (OnUserPostInit GenRandomInt rv1 rv2 user) [arg] hex

theorem OnUserPostInit_exempt_witness :
    ({ freshUser with exempt := true } : User).exempt = true ∧
    (OnUserPostInit (fun max rv => rv % max) 3 4 { freshUser with exempt := true }).solve_message
      = some ⟨3, 4, false⟩ ∧
    OnUserPreMessage
      (OnUserPostInit (fun max rv => rv % max) 3 4 { freshUser with exempt := true })
      (MessageTarget.user freshUser)
      = (ModResult.MOD_RES_PASSTHRU,
          OnUserPostInit (fun max rv => rv % max) 3 4 { freshUser with exempt := true }) := by
  have h := OnUserPostInit_exempt (fun max rv => rv % max) 3 4
    { freshUser with exempt := true } rfl
  exact ⟨rfl, by rw [h.1]; rfl, h.2.1 (MessageTarget.user freshUser)⟩

/-- C10, as stated, fails, also when the operands and their sum are values
of type `int`: no conversion to `int` makes every non-numeric argument a wrong
answer for every problem.  The argument `abc` is read as some `int` `v`, and
against the problem `v + 0` the attempt succeeds. -/
theorem nonnumeric_solve_counterexample :
    ¬ ∃ ConvToNum : Str → Int, (∀ s, isInt (ConvToNum s)) ∧
      ∀ (user : User) (arg : Str) (p : Problem),
        user.exempt = false → user.solve_message = some p → p.inRange →
        isInt (p.first + p.second) → isNumeric arg = false →
          (HandleLocal ConvToNum user [arg]).1 = CmdResult.CMD_FAILURE ∧
          (HandleLocal ConvToNum user [arg]).2.notices = user.notices ++ [noticeWrong arg] ∧
          (HandleLocal ConvToNum user [arg]).2.solve_message = some p ∧
          (HandleLocal ConvToNum user [arg]).2.CommandFloodPenalty
            = user.CommandFloodPenalty + 10000 := by
  rintro ⟨conv, hconv, h⟩
  have hv := hconv ("abc").toList
  have hzero : isInt 0 := by decide
  have hsum : isInt (conv ("abc").toList + 0) := by rw [add_zero]; exact hv
  have h2 := (h { freshUser with solve_message := some ⟨conv ("abc").toList, 0, false⟩ }
    ("abc").toList ⟨conv ("abc").toList, 0, false⟩ rfl rfl ⟨hv, hzero⟩ hsum (by decide)).1
  rw [HandleLocal_right conv _ ("abc").toList ⟨conv ("abc").toList, 0, false⟩ rfl rfl
    (by rw [intAdd_of_isInt _ _ hsum, add_zero])] at h2
  cases h2

/-- C10, amended: for a non-exempt connection whose slot holds `p`, with `int`
operands whose sum is a value of type `int`, and an argument that is not
numeric, the attempt is the wrong-answer case whenever the number the
conversion gives for the argument is not `p.first + p.second`: `HandleLocal`
returns failure, writes the not-the-correct-answer notice, leaves the slot as
it was and adds 10000 to the flood penalty. -/
theorem HandleLocal_nonnumeric (ConvToNum : Str → Int) (user : User) (arg : Str) (p : Problem)
    (hex : user.exempt = false) (hslot : user.solve_message = some p)
    (_hp : p.inRange) (hsum : isInt (p.first + p.second))
    (_hnum : isNumeric arg = false) (hne : ConvToNum arg ≠ p.first + p.second) :
    (HandleLocal ConvToNum user [arg]).1 = CmdResult.CMD_FAILURE ∧
    (HandleLocal ConvToNum user [arg]).2.notices = user.notices ++ [noticeWrong arg] ∧
    (HandleLocal ConvToNum user [arg]).2.solve_message = some p ∧
    (HandleLocal ConvToNum user [arg]).2.CommandFloodPenalty
      = user.CommandFloodPenalty + 10000 := by
  have hne2 : ConvToNum arg ≠ intAdd p.first p.second := by
    rw [intAdd_of_isInt p.first p.second hsum]
    exact hne
  rw [HandleLocal_wrong ConvToNum user arg p hex hslot hne2]
  exact ⟨rfl, rfl, hslot, rfl⟩

theorem HandleLocal_nonnumeric_witness :
    isNumeric ("abc").toList = false ∧
    (⟨3, 4, true⟩ : Problem).inRange ∧
    isInt ((⟨3, 4, true⟩ : Problem).first + (⟨3, 4, true⟩ : Problem).second) ∧
    readInt ("abc").toList ≠ (⟨3, 4, true⟩ : Problem).first + (⟨3, 4, true⟩ : Problem).second ∧
    (HandleLocal readInt { freshUser with solve_message := some ⟨3, 4, true⟩ }
      [("abc").toList]).1 = CmdResult.CMD_FAILURE ∧
    (HandleLocal readInt { freshUser with solve_message := some ⟨3, 4, true⟩ }
      [("abc").toList]).2.notices
      = ({ freshUser with solve_message := some ⟨3, 4, true⟩ } : User).notices
        ++ [noticeWrong ("abc").toList] ∧
    (HandleLocal readInt { freshUser with solve_message := some ⟨3, 4, true⟩ }
      [("abc").toList]).2.solve_message = some ⟨3, 4, true⟩ ∧
    (HandleLocal readInt { freshUser with solve_message := some ⟨3, 4, true⟩ }
      [("abc").toList]).2.CommandFloodPenalty
      = ({ freshUser with solve_message := some ⟨3, 4, true⟩ } : User).CommandFloodPenalty
        + 10000 :=
  ⟨by decide, by decide, by decide, by decide,
    HandleLocal_nonnumeric readInt { freshUser with solve_message := some ⟨3, 4, true⟩ }
      ("abc").toList ⟨3, 4, true⟩ rfl rfl (by decide) (by decide) (by decide) (by decide)⟩

/-! ## Theorems: the remaining outcomes of the ban hook -/

/-- On a group mask with a non-empty pattern `OnCheckBan` is its loop over
the stored names. -/
theorem OnCheckBan_groupmask (Match : Str → Str → Bool) (user : User) (channel : Channel)
    (p : Str) (groups : GroupList) (hp : p ≠ []) (hslot : user.groups = some groups) :
    OnCheckBan Match user channel ('g' :: ':' :: p) = OnCheckBan.loop Match p groups := by
  have hguard : ¬ (('g' :: ':' :: p).length ≤ 2 ∨ ('g' :: ':' :: p).head? ≠ some 'g' ∨
      (('g' :: ':' :: p).drop 1).head? ≠ some ':') := by
    apply (groupMask_guard _).mpr
    refine ⟨?_, p, rfl⟩
    cases p with
    | nil => exact absurd rfl hp
    | cons c cs => simp
  simp only [OnCheckBan, if_neg hguard, GroupExt.get, hslot]
  rfl

/-- On a mask that is no group mask `OnCheckBan` passes through. -/
theorem OnCheckBan_other (Match : Str → Str → Bool) (user : User) (channel : Channel)
    (mask : Str) (h : mask.length ≤ 2 ∨ ¬ ∃ submask, mask = 'g' :: ':' :: submask) :
    OnCheckBan Match user channel mask = ModResult.MOD_RES_PASSTHRU := by
  have hguard : mask.length ≤ 2 ∨ mask.head? ≠ some 'g' ∨ (mask.drop 1).head? ≠ some ':' := by
    by_contra hcon
    obtain ⟨hlen, hpre⟩ := (groupMask_guard mask).mp hcon
    rcases h with h | h
    · omega
    · exact h hpre
  simp only [OnCheckBan, if_pos hguard]

/-- C11, as stated, fails: after the update `ops vips` no group matches
`admin*`, and the ban `g:admin*` gets the very result the ban `n:foo` gets. -/
theorem ban_outcomes_counterexample :
    (GroupExt.unserialize freshUser ("ops vips").toList).groups
      = some [("ops").toList, ("vips").toList] ∧
    (∀ g ∈ [("ops").toList, ("vips").toList], Match g ("admin*").toList = false) ∧
    OnCheckBan Match (GroupExt.unserialize freshUser ("ops vips").toList)
        ⟨("#chan").toList⟩ ("g:admin*").toList
      = OnCheckBan Match (GroupExt.unserialize freshUser ("ops vips").toList)
        ⟨("#chan").toList⟩ ("n:foo").toList := by
  decide

/-- C11, amended: the ban evaluation has two distinguishable outcomes.  For a
container whose slot is present and a mask `g:<p>` with non-empty `p` that no
group name matches, `OnCheckBan` returns `MOD_RES_PASSTHRU`, the result it
also returns for every mask that is no group ban; only a match gives another
result, `MOD_RES_DENY`. -/
theorem OnCheckBan_no_match (Match : Str → Str → Bool) (user : User) (channel : Channel)
    (p : Str) (groups : GroupList) (hp : p ≠ []) (hslot : user.groups = some groups)
    (hno : ∀ g ∈ groups, Match g p = false) :
    OnCheckBan Match user channel ('g' :: ':' :: p) = ModResult.MOD_RES_PASSTHRU ∧
    (∀ mask, (mask.length ≤ 2 ∨ ¬ ∃ submask, mask = 'g' :: ':' :: submask) →
      OnCheckBan Match user channel mask = OnCheckBan Match user channel ('g' :: ':' :: p)) ∧
    (∀ q, q ≠ [] → (∃ g ∈ groups, Match g q = true) →
      OnCheckBan Match user channel ('g' :: ':' :: q) = ModResult.MOD_RES_DENY) ∧
    ModResult.MOD_RES_DENY ≠ ModResult.MOD_RES_PASSTHRU := by
  have hpass : OnCheckBan Match user channel ('g' :: ':' :: p)
      = ModResult.MOD_RES_PASSTHRU := by
    rw [OnCheckBan_groupmask Match user channel p groups hp hslot]
    rcases OnCheckBan.loop_cases Match p groups with h | h
    · obtain ⟨g, hg, hm⟩ := (OnCheckBan.loop_deny_iff Match p groups).mp h
      rw [hno g hg] at hm
      cases hm
    · exact h
  refine ⟨hpass, fun mask hmask => ?_, fun q hq hm => ?_, by decide⟩
  · rw [hpass]
    exact OnCheckBan_other Match user channel mask hmask
  · rw [OnCheckBan_groupmask Match user channel q groups hq hslot]
    exact (OnCheckBan.loop_deny_iff Match q groups).mpr hm

theorem OnCheckBan_no_match_witness :
    (∀ g ∈ [("ops").toList, ("vips").toList], Match g ("admin*").toList = false) ∧
    OnCheckBan Match (GroupExt.unserialize freshUser ("ops vips").toList)
      ⟨("#chan").toList⟩ ("g:admin*").toList = ModResult.MOD_RES_PASSTHRU ∧
    OnCheckBan Match (GroupExt.unserialize freshUser ("ops vips").toList)
      ⟨("#chan").toList⟩ ("n:foo").toList = ModResult.MOD_RES_PASSTHRU ∧
    OnCheckBan Match (GroupExt.unserialize freshUser ("ops vips").toList)
      ⟨("#chan").toList⟩ ("g:op*").toList = ModResult.MOD_RES_DENY := by
  have h := OnCheckBan_no_match Match (GroupExt.unserialize freshUser ("ops vips").toList)
    ⟨("#chan").toList⟩ ("admin*").toList [("ops").toList, ("vips").toList]
    (by decide) (by decide) (by decide)
  refine ⟨by decide, h.1, ?_, ?_⟩
  · have h2 := h.2.1 ("n:foo").toList
      (Or.inr (by
        rintro ⟨submask, hsub⟩
        have hhead : (("n:foo").toList).head? = some 'g' := by rw [hsub]; rfl
        exact absurd hhead (by decide)))
    rw [h2]
    exact h.1
  · exact h.2.2.1 ("op*").toList (by decide) (by decide)

/-! ## Theorems: runs through the gate -/

/-- The two ways `OnUserPreMessage` ends: it passes the message through and
changes nothing, or the sender is local and not exempt, holds a problem, and
writes to a user on an ordinary server. -/
theorem OnUserPreMessage_cases (user : User) (msgtarget : MessageTarget) :
    OnUserPreMessage user msgtarget = (ModResult.MOD_RES_PASSTHRU, user) ∨
    ∃ dest p, msgtarget = MessageTarget.user dest ∧
      user.usertype = UserType.USERTYPE_LOCAL ∧ user.exempt = false ∧
      dest.serverIsULine = false ∧ user.solve_message = some p := by
  by_cases hlocal : user.usertype = UserType.USERTYPE_LOCAL
  · cases hex : user.exempt with
    | true => exact Or.inl (OnUserPreMessage_open user msgtarget (Or.inr (Or.inl hex)))
    | false =>
      cases hslot : user.solve_message with
      | none =>
        exact Or.inl (OnUserPreMessage_open user msgtarget (Or.inr (Or.inr (Or.inr hslot))))
      | some p =>
        cases msgtarget with
        | channel d =>
          exact Or.inl (OnUserPreMessage_open user _
            (Or.inr (Or.inr (Or.inl (fun dest h => by cases h)))))
        | server d =>
          exact Or.inl (OnUserPreMessage_open user _
            (Or.inr (Or.inr (Or.inl (fun dest h => by cases h)))))
        | user dest =>
          cases hd : dest.serverIsULine with
          | true =>
            refine Or.inl (OnUserPreMessage_open user _ (Or.inr (Or.inr (Or.inl ?_))))
            intro d2 h
            cases h
            exact hd
          | false => exact Or.inr ⟨dest, p, rfl, hlocal, rfl, hd, rfl⟩
  · exact Or.inl (OnUserPreMessage_open user msgtarget (Or.inl hlocal))

/-- C12: the end-to-end challenge scenario.  A local, non-exempt connection
enters with the challenge (3, 4).  Its first message to an ordinary user is
denied, the challenge is written and `warned` is set; the second is denied
and nothing is written; `SOLVE 6` fails, adds 10000 to the penalty and leaves
the slot at (3, 4, warned); `SOLVE 7` succeeds and removes the slot; the
message after that passes through. -/
theorem challenge_scenario (GenRandomInt : Nat → Nat → Nat) (ConvToNum : Str → Int)
    (rv1 rv2 : Nat) (user d1 d2 d3 : User)
    (hlocal : user.usertype = UserType.USERTYPE_LOCAL) (hex : user.exempt = false)
    (hfirst : GenRandomInt 9 rv1 = 3) (hsecond : GenRandomInt 9 rv2 = 4)
    (hd1 : d1.serverIsULine = false) (hd2 : d2.serverIsULine = false)
    (_hd3 : d3.serverIsULine = false)
    (h6 : ConvToNum ("6").toList = 6) (h7 : ConvToNum ("7").toList = 7) :
    ∃ u1 u3 u4 : User,
      (OnUserPostInit GenRandomInt rv1 rv2 user).solve_message = some ⟨3, 4, false⟩ ∧
      OnUserPreMessage (OnUserPostInit GenRandomInt rv1 rv2 user) (MessageTarget.user d1)
        = (ModResult.MOD_RES_DENY, u1) ∧
      u1.notices = user.notices ++ [noticeBefore, ("*** What is 3 + 4?").toList, noticeHowTo] ∧
      u1.solve_message = some ⟨3, 4, true⟩ ∧
      OnUserPreMessage u1 (MessageTarget.user d2) = (ModResult.MOD_RES_DENY, u1) ∧
      HandleLocal ConvToNum u1 [("6").toList] = (CmdResult.CMD_FAILURE, u3) ∧
      u3.CommandFloodPenalty = u1.CommandFloodPenalty + 10000 ∧
      u3.solve_message = some ⟨3, 4, true⟩ ∧
      HandleLocal ConvToNum u3 [("7").toList] = (CmdResult.CMD_SUCCESS, u4) ∧
      u4.solve_message = none ∧
      OnUserPreMessage u4 (MessageTarget.user d3) = (ModResult.MOD_RES_PASSTHRU, u4) := by
  have hslot0 : (OnUserPostInit GenRandomInt rv1 rv2 user).solve_message
      = some ⟨3, 4, false⟩ := by
    rw [OnUserPostInit_slot, hfirst, hsecond]
    rfl
  have hq : noticeQuestion 3 4 = ("*** What is 3 + 4?").toList := by decide
  have hs1 := OnUserPreMessage_gated (OnUserPostInit GenRandomInt rv1 rv2 user) d1
    ⟨3, 4, false⟩ hlocal hex hd1 hslot0
  simp only [Bool.false_eq_true, if_false] at hs1
  have hs2 := OnUserPreMessage_gated
    { OnUserPostInit GenRandomInt rv1 rv2 user with
      solve_message := some ⟨3, 4, true⟩
      notices := user.notices ++ [noticeBefore, noticeQuestion 3 4, noticeHowTo] }
    d2 ⟨3, 4, true⟩ hlocal hex hd2 rfl
  rw [if_pos rfl] at hs2
  have hs3 := HandleLocal_wrong ConvToNum
    { OnUserPostInit GenRandomInt rv1 rv2 user with
      solve_message := some ⟨3, 4, true⟩
      notices := user.notices ++ [noticeBefore, noticeQuestion 3 4, noticeHowTo] }
    ("6").toList ⟨3, 4, true⟩ hex rfl (by rw [h6]; decide)
  have hs4 := HandleLocal_right ConvToNum
    { OnUserPostInit GenRandomInt rv1 rv2 user with
      solve_message := some ⟨3, 4, true⟩
      notices := user.notices ++ [noticeBefore, noticeQuestion 3 4, noticeHowTo]
        ++ [noticeWrong ("6").toList]
      CommandFloodPenalty := user.CommandFloodPenalty + 10000 }
    ("7").toList ⟨3, 4, true⟩ hex rfl (by rw [h7]; decide)
  refine ⟨_, _, _, hslot0, hs1, ?_, rfl, hs2, hs3, rfl, rfl, hs4, rfl, ?_⟩
  · rw [hq]
    rfl
  · exact OnUserPreMessage_open _ _ (Or.inr (Or.inr (Or.inr rfl)))

theorem challenge_scenario_witness :
    GenRandomInt 9 3 = 3 ∧ GenRandomInt 9 4 = 4 ∧
    readInt ("6").toList = 6 ∧ readInt ("7").toList = 7 ∧
    ∃ u1 u3 u4 : User,
      (OnUserPostInit GenRandomInt 3 4 freshUser).solve_message = some ⟨3, 4, false⟩ ∧
      OnUserPreMessage (OnUserPostInit GenRandomInt 3 4 freshUser) (MessageTarget.user freshUser)
        = (ModResult.MOD_RES_DENY, u1) ∧
      u1.notices = freshUser.notices
        ++ [noticeBefore, ("*** What is 3 + 4?").toList, noticeHowTo] ∧
      u1.solve_message = some ⟨3, 4, true⟩ ∧
      OnUserPreMessage u1 (MessageTarget.user freshUser) = (ModResult.MOD_RES_DENY, u1) ∧
      HandleLocal readInt u1 [("6").toList] = (CmdResult.CMD_FAILURE, u3) ∧
      u3.CommandFloodPenalty = u1.CommandFloodPenalty + 10000 ∧
      u3.solve_message = some ⟨3, 4, true⟩ ∧
      HandleLocal readInt u3 [("7").toList] = (CmdResult.CMD_SUCCESS, u4) ∧
      u4.solve_message = none ∧
      OnUserPreMessage u4 (MessageTarget.user freshUser) = (ModResult.MOD_RES_PASSTHRU, u4) :=
  ⟨by decide, by decide, by decide, by decide,
    challenge_scenario GenRandomInt readInt 3 4 freshUser freshUser freshUser freshUser
      rfl rfl (by decide) (by decide) rfl rfl rfl (by decide) (by decide)⟩

/-- C13, as stated, fails: a warned sender is denied without any notice
line, and an unwarned sender is denied with three. -/
theorem one_notice_counterexample :
    (OnUserPreMessage { freshUser with solve_message := some ⟨3, 4, true⟩ }
      (MessageTarget.user freshUser)).1 = ModResult.MOD_RES_DENY ∧
    (OnUserPreMessage { freshUser with solve_message := some ⟨3, 4, true⟩ }
      (MessageTarget.user freshUser)).2.notices.length = 0 ∧
    (OnUserPreMessage { freshUser with solve_message := some ⟨3, 4, false⟩ }
      (MessageTarget.user freshUser)).1 = ModResult.MOD_RES_DENY ∧
    (OnUserPreMessage { freshUser with solve_message := some ⟨3, 4, false⟩ }
      (MessageTarget.user freshUser)).2.notices.length = 3 := by
  decide

/-- C13, amended: every `HandleLocal` call that returns failure writes exactly
one notice line to the connection.  An `OnUserPreMessage` call that returns
deny writes the three lines of the challenge when the sender was not warned
yet, and no line when it was. -/
theorem rejection_notices (ConvToNum : Str → Int) (user : User) (arg : Str)
    (msgtarget : MessageTarget) :
    ((HandleLocal ConvToNum user [arg]).1 = CmdResult.CMD_FAILURE →
      ∃ line, (HandleLocal ConvToNum user [arg]).2.notices = user.notices ++ [line]) ∧
    ((OnUserPreMessage user msgtarget).1 = ModResult.MOD_RES_DENY →
      ∃ p, user.solve_message = some p ∧
        (OnUserPreMessage user msgtarget).2.notices = user.notices ++
          (if p.warned then []
            else [noticeBefore, noticeQuestion p.first p.second, noticeHowTo])) := by
  constructor
  · intro hfail
    cases hex : user.exempt with
    | true =>
      rw [HandleLocal_exempt ConvToNum user [arg] hex]
      exact ⟨noticeNoNeed, rfl⟩
    | false =>
      cases hslot : user.solve_message with
      | none =>
        rw [HandleLocal_absent ConvToNum user [arg] hex hslot]
        exact ⟨noticeAlreadySolved, rfl⟩
      | some p =>
        by_cases h : ConvToNum arg = intAdd p.first p.second
        · rw [HandleLocal_right ConvToNum user arg p hex hslot h] at hfail
          cases hfail
        · rw [HandleLocal_wrong ConvToNum user arg p hex hslot h]
          exact ⟨noticeWrong arg, rfl⟩
  · intro hdeny
    rcases OnUserPreMessage_cases user msgtarget with hopen | ⟨dest, p, rfl, hl, hex, hd, hslot⟩
    · rw [hopen] at hdeny
      cases hdeny
    · refine ⟨p, hslot, ?_⟩
      rw [OnUserPreMessage_gated user dest p hl hex hd hslot]
      cases p.warned <;> simp

/-- C14: a message to a user on a U-lined server passes through whatever the
sender's gate state is, and the sender is left exactly as it was: no notice,
same slot, `warned` not set.  So an unwarned sender still gets the challenge
on its next message to a user on an ordinary server. -/
theorem OnUserPreMessage_uline (user dest : User) (hdest : dest.serverIsULine = true) :
    OnUserPreMessage user (MessageTarget.user dest) = (ModResult.MOD_RES_PASSTHRU, user) ∧
    (∀ (p : Problem) (d2 : User), user.usertype = UserType.USERTYPE_LOCAL →
      user.exempt = false → user.solve_message = some p → p.warned = false →
      d2.serverIsULine = false →
      OnUserPreMessage (OnUserPreMessage user (MessageTarget.user dest)).2
          (MessageTarget.user d2)
        = (ModResult.MOD_RES_DENY,
            { user with
              solve_message := some { p with warned := true }
              notices := user.notices ++
                [noticeBefore, noticeQuestion p.first p.second, noticeHowTo] })) := by
  have hopen : OnUserPreMessage user (MessageTarget.user dest)
      = (ModResult.MOD_RES_PASSTHRU, user) := by
    apply OnUserPreMessage_open
    refine Or.inr (Or.inr (Or.inl ?_))
    intro d h
    cases h
    exact hdest
  refine ⟨hopen, ?_⟩
  intro p d2 hl hex hslot hw hd2
  rw [hopen]
  have h := OnUserPreMessage_gated user d2 p hl hex hd2 hslot
  rw [hw] at h
  simpa using h

theorem OnUserPreMessage_uline_witness :
    ({ freshUser with serverIsULine := true } : User).serverIsULine = true ∧
    OnUserPreMessage { freshUser with solve_message := some ⟨3, 4, false⟩ }
        (MessageTarget.user { freshUser with serverIsULine := true })
      = (ModResult.MOD_RES_PASSTHRU, { freshUser with solve_message := some ⟨3, 4, false⟩ }) :=
  ⟨rfl, (OnUserPreMessage_uline { freshUser with solve_message := some ⟨3, 4, false⟩ }
    { freshUser with serverIsULine := true } rfl).1⟩

/-- What one event can do to the slot: a slot that is present afterwards was
present before with the same operands, and `warned` has not gone back from
true to false. -/
theorem gateStep_slot (ConvToNum : Str → Int) (user : User) (event : GateEvent) (q : Problem)
    (hq : (gateStep ConvToNum user event).solve_message = some q) :
    ∃ p, user.solve_message = some p ∧ q.first = p.first ∧ q.second = p.second ∧
      (p.warned = true → q.warned = true) := by
  cases event with
  | message msgtarget =>
    simp only [gateStep] at hq
    rcases OnUserPreMessage_cases user msgtarget with hopen | ⟨dest, p, rfl, hl, hex, hd, hslot⟩
    · rw [hopen] at hq
      exact ⟨q, hq, rfl, rfl, fun h => h⟩
    · rw [OnUserPreMessage_gated user dest p hl hex hd hslot] at hq
      refine ⟨p, hslot, ?_⟩
      cases hw : p.warned with
      | true =>
        rw [hw, if_pos rfl, hslot] at hq
        cases hq
        exact ⟨rfl, rfl, fun _ => hw⟩
      | false =>
        rw [hw] at hq
        simp only [Bool.false_eq_true, if_false] at hq
        cases hq
        exact ⟨rfl, rfl, fun _ => rfl⟩
  | solve arg =>
    simp only [gateStep] at hq
    cases hex : user.exempt with
    | true =>
      rw [HandleLocal_exempt ConvToNum user [arg] hex] at hq
      exact ⟨q, hq, rfl, rfl, fun h => h⟩
    | false =>
      cases hslot : user.solve_message with
      | none =>
        rw [HandleLocal_absent ConvToNum user [arg] hex hslot] at hq
        simp only [User.WriteNotice] at hq
        rw [hslot] at hq
        cases hq
      | some p =>
        by_cases h : ConvToNum arg = intAdd p.first p.second
        · rw [HandleLocal_right ConvToNum user arg p hex hslot h] at hq
          cases hq
        · rw [HandleLocal_wrong ConvToNum user arg p hex hslot h] at hq
          simp only at hq
          rw [hslot] at hq
          cases hq
          exact ⟨q, rfl, rfl, rfl, fun h => h⟩

/-- The same over a run of events. -/
theorem gateRun_slot (ConvToNum : Str → Int) (events : List GateEvent) (user : User)
    (q : Problem) (hq : (gateRun ConvToNum user events).solve_message = some q) :
    ∃ p, user.solve_message = some p ∧ q.first = p.first ∧ q.second = p.second ∧
      (p.warned = true → q.warned = true) := by
  induction events generalizing user with
  | nil => exact ⟨q, hq, rfl, rfl, fun h => h⟩
  | cons event rest ih =>
    simp only [gateRun, List.foldl_cons] at hq
    obtain ⟨m, hm, hf, hs, hw⟩ := ih (gateStep ConvToNum user event) hq
    obtain ⟨p, hp, hf2, hs2, hw2⟩ := gateStep_slot ConvToNum user event m hm
    exact ⟨p, hp, hf.trans hf2, hs.trans hs2, fun h => hw (hw2 h)⟩

theorem gateRun_append (ConvToNum : Str → Int) (user : User) (evs1 evs2 : List GateEvent) :
    gateRun ConvToNum user (evs1 ++ evs2)
      = gateRun ConvToNum (gateRun ConvToNum user evs1) evs2 := by
  simp only [gateRun, List.foldl_append]

/-- C19: after one entry, along every finite run of gate checks and solve
attempts: a slot that is present holds the operands generated at entry;
between any earlier and any later point of the run `warned` does not go back
from true to false; and a slot that has been removed is not present again at
any later point. -/
theorem gate_invariants (GenRandomInt : Nat → Nat → Nat) (ConvToNum : Str → Int)
    (rv1 rv2 : Nat) (user : User) (evs1 evs2 : List GateEvent) :
    (∀ q, (gateRun ConvToNum (OnUserPostInit GenRandomInt rv1 rv2 user) evs1).solve_message
        = some q →
      q.first = (GenRandomInt 9 rv1 : Nat) ∧ q.second = (GenRandomInt 9 rv2 : Nat)) ∧
    (∀ p q, (gateRun ConvToNum (OnUserPostInit GenRandomInt rv1 rv2 user) evs1).solve_message
        = some p →
      (gateRun ConvToNum (OnUserPostInit GenRandomInt rv1 rv2 user) (evs1 ++ evs2)).solve_message
        = some q →
      p.warned = true → q.warned = true) ∧
    ((gateRun ConvToNum (OnUserPostInit GenRandomInt rv1 rv2 user) evs1).solve_message = none →
      (gateRun ConvToNum (OnUserPostInit GenRandomInt rv1 rv2 user) (evs1 ++ evs2)).solve_message
        = none) := by
  refine ⟨fun q hq => ?_, fun p q hp hq hw => ?_, fun hnone => ?_⟩
  · obtain ⟨p, hp, hf, hs, _⟩ := gateRun_slot ConvToNum evs1 _ q hq
    rw [OnUserPostInit_slot] at hp
    cases hp
    exact ⟨hf, hs⟩
  · rw [gateRun_append] at hq
    obtain ⟨m, hm, _, _, hmw⟩ := gateRun_slot ConvToNum evs2 _ q hq
    rw [hp] at hm
    cases hm
    exact hmw hw
  · rw [gateRun_append]
    cases hfin : (gateRun ConvToNum
        (gateRun ConvToNum (OnUserPostInit GenRandomInt rv1 rv2 user) evs1) evs2).solve_message with
    | none => rfl
    | some q =>
      obtain ⟨m, hm, _⟩ := gateRun_slot ConvToNum evs2 _ q hfin
      rw [hnone] at hm
      cases hm

/-! ## Theorems: the stored group list and its written form -/

/-- Joining with one space: the first name, then every other name after a
space. -/
theorem intercalate_space_cons (n : Str) (rest : List Str) :
    List.intercalate [' '] (n :: rest) = n ++ rest.flatMap fun t => ' ' :: t := by
  induction rest generalizing n with
  | nil => simp [List.intercalate]
  | cons m r ih =>
    have h := ih m
    simp only [List.intercalate, List.intersperse_cons_cons, List.flatten_cons,
      List.flatMap_cons, List.singleton_append, List.cons_append] at h ⊢
    rw [h]
    rfl

theorem noDoubleSpace_of_not_mem (t : Str) (ht : ' ' ∉ t) : noDoubleSpace t := by
  induction t with
  | nil => exact List.chain'_nil
  | cons c cs ih =>
    have hc : c ≠ ' ' := fun h => ht (by simp [h])
    have hcs : ' ' ∉ cs := fun h => ht (by simp [h])
    refine List.chain'_cons'.mpr ⟨?_, ih hcs⟩
    intro y _ h
    exact hc h.1

/-- The written form of a list of names that are non-empty and hold no
space: it starts with the first name, does not end in a space and has no two
spaces in a row. -/
theorem spaced_shape (n : Str) (rest : List Str) (hn : n ≠ [] ∧ ' ' ∉ n)
    (hrest : ∀ t ∈ rest, t ≠ [] ∧ ' ' ∉ t) :
    (n ++ rest.flatMap fun t => ' ' :: t).head? ≠ some ' ' ∧
    (n ++ rest.flatMap fun t => ' ' :: t).getLast? ≠ some ' ' ∧
    noDoubleSpace (n ++ rest.flatMap fun t => ' ' :: t) := by
  induction rest generalizing n with
  | nil =>
    simp only [List.flatMap_nil, List.append_nil]
    refine ⟨?_, ?_, noDoubleSpace_of_not_mem n hn.2⟩
    · intro h
      exact hn.2 (List.mem_of_mem_head? h)
    · intro h
      exact hn.2 (List.mem_of_mem_getLast? h)
  | cons m r ih =>
    have hm := hrest m (by simp)
    obtain ⟨_, hlast, hchain⟩ := ih m hm (fun t ht => hrest t (by simp [ht]))
    have hne : (m ++ r.flatMap fun t => ' ' :: t) ≠ [] := by
      intro h
      exact hm.1 (List.append_eq_nil.mp h).1
    simp only [List.flatMap_cons, List.cons_append]
    refine ⟨?_, ?_, ?_⟩
    · intro h
      rw [List.head?_append_of_ne_nil _ hn.1] at h
      exact hn.2 (List.mem_of_mem_head? h)
    · intro h
      rw [List.getLast?_append_of_ne_nil _ (by simp), List.getLast?_cons] at h
      cases hx : (m ++ r.flatMap fun t => ' ' :: t).getLast? with
      | none => exact hne (List.getLast?_eq_none_iff.mp hx)
      | some x =>
        rw [hx] at h
        simp only [Option.getD_some] at h
        rw [hx, ← h] at hlast
        exact hlast rfl
    · refine List.chain'_append.mpr ⟨noDoubleSpace_of_not_mem n hn.2, ?_, ?_⟩
      · refine List.chain'_cons'.mpr ⟨?_, hchain⟩
        intro y hy h
        have hy2 : y ∈ m := by
          rw [List.head?_append_of_ne_nil _ hm.1] at hy
          exact List.mem_of_mem_head? hy
        exact hm.2 (h.2 ▸ hy2)
      · intro x hx y _ h
        exact hn.2 (h.1 ▸ List.mem_of_mem_getLast? hx)

/-- Whatever `unserialize` installs is a non-empty, strictly ascending list of
names that are non-empty and hold no space. -/
theorem GroupExt.unserialize_installed (container : User) (value : Str) (groups : GroupList)
    (h : (GroupExt.unserialize container value).groups = some groups) :
    groups = GroupExt.newgrouplist value ∧ groups ≠ [] ∧
      (∀ t ∈ groups, t ≠ [] ∧ ' ' ∉ t) ∧ groups.Sorted (· < ·) := by
  rw [GroupExt.unserialize_groups] at h
  by_cases hnil : GroupExt.newgrouplist value = []
  · rw [if_pos hnil] at h
    cases h
  · rw [if_neg hnil] at h
    cases h
    refine ⟨rfl, hnil, fun t ht => ?_, GroupExt.newgrouplist_sorted value⟩
    exact sepTokens_token [] value (by simp) t ((GroupExt.mem_newgrouplist value t).mp ht)

/-- The same for every state a run of updates reaches from an empty store. -/
theorem GroupExt.reachable_installed (updates : List Str) (container : User)
    (h0 : container.groups = none) (groups : GroupList)
    (h : (updates.foldl GroupExt.unserialize container).groups = some groups) :
    groups ≠ [] ∧ (∀ t ∈ groups, t ≠ [] ∧ ' ' ∉ t) ∧ groups.Sorted (· < ·) := by
  rcases List.eq_nil_or_concat updates with hnil | ⟨front, last, hcat⟩
  · rw [hnil, List.foldl_nil, h0] at h
    cases h
  · rw [hcat, List.concat_eq_append, List.foldl_append, List.foldl_cons, List.foldl_nil] at h
    exact (GroupExt.unserialize_installed _ last groups h).2

/-- On such a list `serialize` writes the names joined by one space. -/
theorem GroupExt.serialize_eq_join (groups : GroupList) (hnames : ∀ t ∈ groups, t ≠ [] ∧ ' ' ∉ t) :
    GroupExt.serialize (some groups) = join groups := by
  cases groups with
  | nil => rfl
  | cons n rest =>
    rw [GroupExt.serialize_cons n rest (hnames n (by simp)).1, join, intercalate_space_cons]

/-- C15: in every state a run of `unserialize` calls reaches from an empty
store, `serialize` gives the empty string exactly when the slot is absent;
when the slot is present the result is its names, each non-empty and without
a space, joined by one space: it does not start with a space, does not end in
one and has no two spaces in a row. -/
theorem serialize_empty_iff_absent (container : User) (updates : List Str)
    (h0 : container.groups = none) :
    (GroupExt.serialize (updates.foldl GroupExt.unserialize container).groups = [] ↔
      (updates.foldl GroupExt.unserialize container).groups = none) ∧
    (∀ groups, (updates.foldl GroupExt.unserialize container).groups = some groups →
      GroupExt.serialize (some groups) = List.intercalate [' '] groups ∧
      (∀ t ∈ groups, t ≠ [] ∧ ' ' ∉ t) ∧
      (GroupExt.serialize (some groups)).head? ≠ some ' ' ∧
      (GroupExt.serialize (some groups)).getLast? ≠ some ' ' ∧
      noDoubleSpace (GroupExt.serialize (some groups))) := by
  have hshape : ∀ groups, (updates.foldl GroupExt.unserialize container).groups = some groups →
      GroupExt.serialize (some groups) ≠ [] ∧
      GroupExt.serialize (some groups) = List.intercalate [' '] groups ∧
      (∀ t ∈ groups, t ≠ [] ∧ ' ' ∉ t) ∧
      (GroupExt.serialize (some groups)).head? ≠ some ' ' ∧
      (GroupExt.serialize (some groups)).getLast? ≠ some ' ' ∧
      noDoubleSpace (GroupExt.serialize (some groups)) := by
    intro groups hg
    obtain ⟨hne, hnames, _⟩ := GroupExt.reachable_installed updates container h0 groups hg
    have hjoin := GroupExt.serialize_eq_join groups hnames
    cases groups with
    | nil => exact absurd rfl hne
    | cons n rest =>
      have hn := hnames n (by simp)
      have hsh := spaced_shape n rest hn (fun t ht => hnames t (by simp [ht]))
      rw [← GroupExt.serialize_cons n rest hn.1] at hsh
      refine ⟨?_, hjoin, hnames, hsh⟩
      rw [GroupExt.serialize_cons n rest hn.1]
      intro h
      exact hn.1 (List.append_eq_nil.mp h).1
  constructor
  · cases hg : (updates.foldl GroupExt.unserialize container).groups with
    | none => simp [GroupExt.serialize]
    | some groups =>
      constructor
      · intro h
        exact absurd h (hshape groups hg).1
      · intro h
        cases h
  · intro groups hg
    exact (hshape groups hg).2

theorem serialize_empty_iff_absent_witness :
    freshUser.groups = none ∧
    (GroupExt.serialize ([("b a").toList, ("").toList, ("ops  vips").toList].foldl
        GroupExt.unserialize freshUser).groups = [] ↔
      ([("b a").toList, ("").toList, ("ops  vips").toList].foldl
        GroupExt.unserialize freshUser).groups = none) ∧
    GroupExt.serialize ([("b a").toList, ("").toList, ("ops  vips").toList].foldl
        GroupExt.unserialize freshUser).groups = ("ops vips").toList :=
  ⟨rfl, (serialize_empty_iff_absent freshUser
    [("b a").toList, ("").toList, ("ops  vips").toList] rfl).1, by decide⟩

/-- C16, as stated, fails: for a container without groups `OnWhois` sends no
line at all, so no line of the reply carries the empty string `serialize`
gives. -/
theorem whois_counterexample :
    GroupExt.serialize (GroupExt.unserialize freshUser ("").toList).groups = [] ∧
    ¬ ∃ line ∈ OnWhois (GroupExt.unserialize freshUser ("").toList),
      line.groupstr = GroupExt.serialize (GroupExt.unserialize freshUser ("").toList).groups := by
  decide

/-- C16, amended: in every state a run of `unserialize` calls reaches from an
empty store, when the slot is present `OnWhois` sends exactly one line,
numeric 695, whose group string is the string `serialize` produces, the names
joined by single spaces; when the slot is absent `OnWhois` sends no line. -/
theorem whois_matches_serialize (container : User) (updates : List Str)
    (h0 : container.groups = none) :
    (∀ groups, (updates.foldl GroupExt.unserialize container).groups = some groups →
      OnWhois (updates.foldl GroupExt.unserialize container)
        = [{ numeric := 695,
             groupstr :=
               GroupExt.serialize (updates.foldl GroupExt.unserialize container).groups,
             text := ("is a member of these groups").toList }] ∧
      GroupExt.serialize (updates.foldl GroupExt.unserialize container).groups
        = List.intercalate [' '] groups) ∧
    ((updates.foldl GroupExt.unserialize container).groups = none →
      OnWhois (updates.foldl GroupExt.unserialize container) = []) := by
  constructor
  · intro groups hg
    obtain ⟨_, hnames, _⟩ := GroupExt.reachable_installed updates container h0 groups hg
    have hjoin := GroupExt.serialize_eq_join groups hnames
    rw [hg, hjoin]
    refine ⟨?_, rfl⟩
    simp only [OnWhois, GroupExt.get, hg, RPL_WHOISGROUPS]
  · intro hg
    simp only [OnWhois, GroupExt.get, hg]

theorem whois_matches_serialize_witness :
    freshUser.groups = none ∧
    OnWhois ([("ops vips").toList].foldl GroupExt.unserialize freshUser)
      = [{ numeric := 695, groupstr := ("ops vips").toList,
           text := ("is a member of these groups").toList }] ∧
    (∀ groups, ([("ops vips").toList].foldl GroupExt.unserialize freshUser).groups
        = some groups →
      OnWhois ([("ops vips").toList].foldl GroupExt.unserialize freshUser)
        = [{ numeric := 695,
             groupstr := GroupExt.serialize
               ([("ops vips").toList].foldl GroupExt.unserialize freshUser).groups,
             text := ("is a member of these groups").toList }] ∧
      GroupExt.serialize ([("ops vips").toList].foldl GroupExt.unserialize freshUser).groups
        = List.intercalate [' '] groups) :=
  ⟨rfl, by decide, (whois_matches_serialize freshUser [("ops vips").toList] rfl).1⟩

/-! ### Decode after encode -/

/-- A name larger than every stored name goes to the end of the set. -/
theorem GroupList.insert_last (x : Str) (l : GroupList) (h : ∀ y ∈ l, y < x) :
    GroupList.insert x l = l ++ [x] := by
  induction l with
  | nil => rfl
  | cons y ys ih =>
    rw [GroupList.insert, if_pos (h y (by simp)), ih (fun z hz => h z (by simp [hz]))]
    rfl

/-- Inserting the names of a strictly ascending list in order rebuilds the
list. -/
theorem GroupList.foldl_insert_sorted (names : List Str) (init : GroupList)
    (h : (init ++ names).Sorted (· < ·)) :
    names.foldl (fun l groupname => GroupList.insert groupname l) init = init ++ names := by
  induction names generalizing init with
  | nil => simp
  | cons n rest ih =>
    have hlt : ∀ y ∈ init, y < n := by
      intro y hy
      exact (List.pairwise_append.mp h).2.2 y hy n (by simp)
    rw [List.foldl_cons, GroupList.insert_last n init hlt, ih (init ++ [n]) (by simpa using h)]
    simp

/-- Reading back what `serialize` wrote for an installed list gives the list
again. -/
theorem GroupExt.newgrouplist_serialize (groups : GroupList)
    (hnames : ∀ t ∈ groups, t ≠ [] ∧ ' ' ∉ t) (hsorted : groups.Sorted (· < ·)) :
    GroupExt.newgrouplist (GroupExt.serialize (some groups)) = groups := by
  rw [GroupExt.newgrouplist, spacesepstream_serialize groups hnames,
    GroupList.foldl_insert_sorted groups [] (by simpa using hsorted)]
  rfl

/-- C18: decode undoes encode on stored group lists.  For every list `G` that
`unserialize` installs, `unserialize` of `serialize G` installs `G` again; so
for `t`, the string `serialize` writes after `unserialize s`, writing after
reading `t` gives `t` back, and the names of `t` stand in strictly ascending
order. -/
theorem unserialize_serialize_roundtrip (c1 c2 : User) (s : Str) :
    (∀ G, (GroupExt.unserialize c1 s).groups = some G →
      (GroupExt.unserialize c2 (GroupExt.serialize (some G))).groups = some G) ∧
    GroupExt.serialize
        (GroupExt.unserialize c2
          (GroupExt.serialize (GroupExt.unserialize c1 s).groups)).groups
      = GroupExt.serialize (GroupExt.unserialize c1 s).groups ∧
    (spacesepstream (GroupExt.serialize (GroupExt.unserialize c1 s).groups)).Sorted
      (· < ·) := by
  have hback : ∀ G, (GroupExt.unserialize c1 s).groups = some G →
      (GroupExt.unserialize c2 (GroupExt.serialize (some G))).groups = some G := by
    intro G hG
    obtain ⟨_, hne, hnames, hsorted⟩ := GroupExt.unserialize_installed c1 s G hG
    rw [GroupExt.unserialize_groups, GroupExt.newgrouplist_serialize G hnames hsorted,
      if_neg hne]
  refine ⟨hback, ?_, ?_⟩
  · cases hG : (GroupExt.unserialize c1 s).groups with
    | none =>
      have hnil : GroupExt.newgrouplist (GroupExt.serialize none) = [] := by decide
      rw [GroupExt.unserialize_groups, if_pos hnil]
    | some G => rw [hback G hG]
  · cases hG : (GroupExt.unserialize c1 s).groups with
    | none => simp [GroupExt.serialize, spacesepstream, sepTokens]
    | some G =>
      obtain ⟨_, _, hnames, hsorted⟩ := GroupExt.unserialize_installed c1 s G hG
      rw [spacesepstream_serialize G hnames]
      exact hsorted

/-! ## Theorems: the operands drawn at entry -/

/-- C17: with the random source of the spec, entry installs a challenge
whose operands lie between 0 and 9 with `warned = false`, so their sum is at
most 18; and each of the values 0 to 9 is drawn, as first and as second
operand, for some output of the random source. -/
theorem OnUserPostInit_operands (rv1 rv2 : Nat) (user : User) :
    (∃ p, (OnUserPostInit GenRandomInt rv1 rv2 user).solve_message = some p ∧
      0 ≤ p.first ∧ p.first ≤ 9 ∧ 0 ≤ p.second ∧ p.second ≤ 9 ∧ p.warned = false ∧
      p.first + p.second ≤ 18) ∧
    (∀ v : Nat, v ≤ 9 → ∃ rv p,
      (OnUserPostInit GenRandomInt rv rv2 user).solve_message = some p ∧ p.first = v) ∧
    (∀ v : Nat, v ≤ 9 → ∃ rv p,
      (OnUserPostInit GenRandomInt rv1 rv user).solve_message = some p ∧ p.second = v) := by
  have hb : ∀ rv, GenRandomInt 9 rv ≤ 9 := by
    intro rv
    have := Nat.mod_lt rv (show 0 < 9 + 1 by decide)
    simp only [GenRandomInt]
    omega
  have hv : ∀ v, v ≤ 9 → GenRandomInt 9 v = v := by
    intro v hle
    simp only [GenRandomInt]
    exact Nat.mod_eq_of_lt (by omega)
  refine ⟨⟨_, OnUserPostInit_slot GenRandomInt rv1 rv2 user, ?_, ?_, ?_, ?_, rfl, ?_⟩, ?_, ?_⟩
  · exact Int.natCast_nonneg _
  · show ((GenRandomInt 9 rv1 : Nat) : Int) ≤ 9
    exact_mod_cast hb rv1
  · exact Int.natCast_nonneg _
  · show ((GenRandomInt 9 rv2 : Nat) : Int) ≤ 9
    exact_mod_cast hb rv2
  · have h1 := hb rv1
    have h2 := hb rv2
    show ((GenRandomInt 9 rv1 : Nat) : Int) + ((GenRandomInt 9 rv2 : Nat) : Int) ≤ 18
    omega
  · intro v hle
    exact ⟨v, _, OnUserPostInit_slot GenRandomInt v rv2 user, by
      show ((GenRandomInt 9 v : Nat) : Int) = v
      rw [hv v hle]⟩
  · intro v hle
    exact ⟨v, _, OnUserPostInit_slot GenRandomInt rv1 v user, by
      show ((GenRandomInt 9 v : Nat) : Int) = v
      rw [hv v hle]⟩

/-! ## Theorems: m_pretenduser.cpp -/

/-- Past the first parameter the loop puts a space in front of every
parameter it appends. -/
theorem CommandPretenduser.loop_later (i : Nat) (cmd : Str) (rest : List Str) (hi : 1 < i) :
    CommandPretenduser.loop i cmd rest = cmd ++ rest.flatMap fun t => ' ' :: t := by
  induction rest generalizing i cmd with
  | nil => simp [CommandPretenduser.loop]
  | cons p ps ih =>
    rw [CommandPretenduser.loop, if_pos hi, ih (i + 1) _ (by omega)]
    simp

/-- The loop of `Handle` joins the parameters with single spaces. -/
theorem CommandPretenduser.loop_eq_intercalate (rest : List Str) :
    CommandPretenduser.loop 1 [] rest = List.intercalate [' '] rest := by
  cases rest with
  | nil => rfl
  | cons p ps =>
    rw [CommandPretenduser.loop, if_neg (by decide), CommandPretenduser.loop_later _ _ ps (by decide),
      intercalate_space_cons]
    rfl

/-- A joined line ends with its last part. -/
theorem spaced_ends (p : Str) (ps : List Str) :
    ∃ front, (p ++ ps.flatMap fun t => ' ' :: t) = front ++ ps.getLastD p := by
  induction ps generalizing p with
  | nil => exact ⟨[], by simp⟩
  | cons q qs ih =>
    obtain ⟨front, hfront⟩ := ih q
    refine ⟨p ++ ' ' :: front, ?_⟩
    simp only [List.flatMap_cons, List.cons_append, List.append_assoc, List.getLastD_cons]
    rw [hfront]

/-- C20, as stated, fails: the injected line can begin or end with a space.
With the parameters `nick` and ` hello` the line is ` hello`, and with an
empty last parameter after `PRIVMSG` and `#c` the line is `PRIVMSG #c `. -/
theorem pretend_line_counterexample :
    CommandPretenduser.Handle (fun _ => some freshUser)
        [("nick").toList, (" hello").toList] freshUser
      = (CmdResult.CMD_SUCCESS, [(freshUser, (" hello").toList)]) ∧
    ((" hello").toList).head? = some ' ' ∧
    CommandPretenduser.Handle (fun _ => some freshUser)
        [("nick").toList, ("PRIVMSG").toList, ("#c").toList, ("").toList] freshUser
      = (CmdResult.CMD_SUCCESS, [(freshUser, ("PRIVMSG #c ").toList)]) ∧
    (("PRIVMSG #c ").toList).getLast? = some ' ' := by
  decide

/-- C20, amended: for a parameter list of at least two entries, `Handle`
returns failure and injects nothing when `parameters[0]` names no user;
otherwise it returns success and injects, as that user, exactly one line: the
parameters from `parameters[1]` on, in order, joined by single spaces.  The
join puts no space before `parameters[1]` or after the last parameter: the
line begins with `parameters[1]` and ends with the last parameter, so its
first character is that of a non-empty `parameters[1]` and its last character
that of a non-empty last parameter. -/
theorem Handle_injects (FindNick : Str → Option User) (parameters : List Str) (user : User)
    (h : 2 ≤ parameters.length) :
    (FindNick (parameters.getD 0 []) = none →
      CommandPretenduser.Handle FindNick parameters user = (CmdResult.CMD_FAILURE, [])) ∧
    (∀ u, FindNick (parameters.getD 0 []) = some u →
      CommandPretenduser.Handle FindNick parameters user
        = (CmdResult.CMD_SUCCESS, [(u, List.intercalate [' '] (parameters.drop 1))])) ∧
    (∃ back, List.intercalate [' '] (parameters.drop 1) = parameters.getD 1 [] ++ back) ∧
    (∃ front, List.intercalate [' '] (parameters.drop 1)
      = front ++ parameters.getLastD []) ∧
    (parameters.getD 1 [] ≠ [] →
      (List.intercalate [' '] (parameters.drop 1)).head? = (parameters.getD 1 []).head?) ∧
    (parameters.getLastD [] ≠ [] →
      (List.intercalate [' '] (parameters.drop 1)).getLast?
        = (parameters.getLastD []).getLast?) := by
  have hbegin : ∃ back, List.intercalate [' '] (parameters.drop 1)
      = parameters.getD 1 [] ++ back := by
    match parameters, h with
    | p0 :: p1 :: ps, _ =>
      exact ⟨ps.flatMap fun t => ' ' :: t, by
        rw [List.drop_one, List.tail_cons, intercalate_space_cons]
        rfl⟩
  have hend : ∃ front, List.intercalate [' '] (parameters.drop 1)
      = front ++ parameters.getLastD [] := by
    match parameters, h with
    | p0 :: p1 :: ps, _ =>
      obtain ⟨front, hfront⟩ := spaced_ends p1 ps
      refine ⟨front, ?_⟩
      rw [List.drop_one, List.tail_cons, intercalate_space_cons, hfront]
      simp only [List.getLastD_cons]
  refine ⟨fun hnone => ?_, fun u hu => ?_, hbegin, hend, fun hne => ?_, fun hne => ?_⟩
  · simp only [CommandPretenduser.Handle, hnone]
  · simp only [CommandPretenduser.Handle, hu, CommandPretenduser.loop_eq_intercalate]
  · obtain ⟨back, hback⟩ := hbegin
    rw [hback, List.head?_append_of_ne_nil _ hne]
  · obtain ⟨front, hfront⟩ := hend
    rw [hfront, List.getLast?_append_of_ne_nil _ hne]

theorem Handle_injects_witness :
    2 ≤ [("nick").toList, ("PRIVMSG").toList, ("#chan").toList, (":hello").toList].length ∧
    CommandPretenduser.Handle (fun nick => if nick = ("nick").toList then some freshUser else none)
        [("nick").toList, ("PRIVMSG").toList, ("#chan").toList, (":hello").toList] freshUser
      = (CmdResult.CMD_SUCCESS, [(freshUser, ("PRIVMSG #chan :hello").toList)]) := by
  have h := (Handle_injects (fun nick => if nick = ("nick").toList then some freshUser else none)
    [("nick").toList, ("PRIVMSG").toList, ("#chan").toList, (":hello").toList] freshUser
    (by decide)).2.1 freshUser (by decide)
  refine ⟨by decide, ?_⟩
  rw [h]
  decide

end InspIRCd
